import Mathlib

set_option maxRecDepth 8192

/-!
Shallow embedding of the BusTub buffer pool (clock replacer + buffer pool
manager) and of the disk-backed linear-probing hash index, translated from
the C++ sources:

  src/buffer/clock_replacer.cpp
  src/buffer/buffer_pool_manager.cpp
  src/storage/page/hash_table_block_page.cpp
  src/storage/page/hash_table_header_page.cpp
  src/container/hash/linear_probe_hash_table.cpp

Conventions of the embedding:
  * machine integers are modelled as Nat / Int; `page_id_t` (a 32-bit signed
    int) is Int with INVALID_PAGE_ID = -1 on the buffer-pool side; allocation
    is monotone and far from overflow, so no wrap is applied to page ids;
  * `size_t` subtraction that can wrap (the `(n - 1) / N + 1` block count and
    the `size_--` in Remove) is modelled with an explicit % 2^64;
  * page data is opaque to the buffer pool and is modelled as a single Nat;
  * hash maps (`page_table_`, the pool of disk blocks, the page store of the
    index) are modelled as functions out of the key type;
  * latching and the Transaction argument are concurrency plumbing with no
    effect on the sequential semantics and are dropped;
  * every operation is a state-passing function returning its C++ return
    value paired with the updated state.
-/

/-! ### ClockReplacer (src/buffer/clock_replacer.cpp) -/

/-- One entry of the `bits_` vector: the per-frame `ref` and `in_replacer`
bit-fields of `ClockBits`. -/
structure ClockBits where
  ref : Bool
  in_replacer : Bool
deriving DecidableEq

instance : Inhabited ClockBits := ⟨⟨false, false⟩⟩

/-- `ClockReplacer`: `sz_`, the `bits_` vector and the clock `hand_`. -/
structure ClockReplacer where
  sz : Nat
  bits : List ClockBits
  hand : Nat
deriving DecidableEq

/-- The `ClockReplacer(num_pages)` constructor: `sz_ = 0`, `hand_ = 0`, and
every frame has both bits cleared. -/
def ClockReplacer.init (num_pages : Nat) : ClockReplacer :=
  { sz := 0, bits := List.replicate num_pages default, hand := 0 }

/-- Modelled from the spec: the helper `inc_hand()` used by `Victim` is
declared in the repository but its body is not among the sources; the spec
fixes the hand as the cursor with `0 ≤ hand < pool_size` that `victim`
advances one position per scanned frame, so it increments modulo the frame
count. -/
def ClockReplacer.incHand (r : ClockReplacer) : ClockReplacer :=
  { r with hand := (r.hand + 1) % r.bits.length }

/-- The scan loop of `ClockReplacer::Victim`: the C++ loop runs
`for (i = 0; i <= 2*bits_.size(); i++)`, i.e. `2*size + 1` iterations, which
is the fuel this function starts with. Each iteration advances the hand,
victimises a frame that is in the replacer with `ref = 0` (setting its `ref`
to 1 and clearing `in_replacer`), and otherwise clears a set `ref` bit. -/
def ClockReplacer.victimLoop : ClockReplacer → Nat → Option Nat × ClockReplacer
  | r, 0 => (none, r)
  | r, n + 1 =>
    let r1 := r.incHand
    let b := r1.bits.getD r1.hand default
    if b.in_replacer && !b.ref then
      (some r1.hand,
        { r1 with bits := r1.bits.set r1.hand ⟨true, false⟩, sz := r1.sz - 1 })
    else if b.ref then
      ClockReplacer.victimLoop { r1 with bits := r1.bits.set r1.hand ⟨false, b.in_replacer⟩ } n
    else
      ClockReplacer.victimLoop r1 n

/-- `ClockReplacer::Victim`. -/
def ClockReplacer.Victim (r : ClockReplacer) : Option Nat × ClockReplacer :=
  r.victimLoop (2 * r.bits.length + 1)

/-- `ClockReplacer::Pin`: a frame not in the replacer is left unchanged
(the C++ logs an error and returns); otherwise `in_replacer` is cleared and
`sz_` decremented. -/
def ClockReplacer.Pin (r : ClockReplacer) (frame_id : Nat) : ClockReplacer :=
  let b := r.bits.getD frame_id default
  if !b.in_replacer then r
  else { r with bits := r.bits.set frame_id ⟨b.ref, false⟩, sz := r.sz - 1 }

/-- `ClockReplacer::Unpin`: a frame already in the replacer is left unchanged
(the C++ logs an error and returns); otherwise `in_replacer` is set and `sz_`
incremented.  Note that the `ref` bit is not touched in either case. -/
def ClockReplacer.Unpin (r : ClockReplacer) (frame_id : Nat) : ClockReplacer :=
  let b := r.bits.getD frame_id default
  if b.in_replacer then r
  else { r with bits := r.bits.set frame_id ⟨b.ref, true⟩, sz := r.sz + 1 }

/-- `ClockReplacer::Size`. -/
def ClockReplacer.Size (r : ClockReplacer) : Nat := r.sz

/-- Reasoning accessor: is the frame currently in the replacer
(the `replacer.contains(fid)` of the spec invariant). -/
def ClockReplacer.containsFrame (r : ClockReplacer) (fid : Nat) : Bool :=
  (r.bits.getD fid default).in_replacer

/-! ### BufferPoolManager (src/buffer/buffer_pool_manager.cpp) -/

/-- A `Page` object: the frame metadata plus its (opaque) data. -/
structure Page where
  page_id : Int
  pin_count : Nat
  is_dirty : Bool
  data : Nat
deriving DecidableEq

instance : Inhabited Page := ⟨⟨-1, 0, false, 0⟩⟩

/-- The disk collaborator: the backing store of page contents plus the
monotone allocation counter of `AllocatePage`.  A page never written reads
back as zeroes. -/
structure DiskManager where
  blocks : Int → Nat
  next_page_id : Int

def DiskManager.init : DiskManager := { blocks := fun _ => 0, next_page_id := 0 }

def DiskManager.WritePage (d : DiskManager) (pid : Int) (v : Nat) : DiskManager :=
  { d with blocks := fun q => if q = pid then v else d.blocks q }

def DiskManager.ReadPage (d : DiskManager) (pid : Int) : Nat := d.blocks pid

def DiskManager.AllocatePage (d : DiskManager) : Int × DiskManager :=
  (d.next_page_id, { d with next_page_id := d.next_page_id + 1 })

/-- `BufferPoolManager` state: frame array, page table, free list, replacer,
disk handle. -/
structure BufferPoolManager where
  pages : List Page
  page_table : Int → Option Nat
  free_list : List Nat
  replacer : ClockReplacer
  disk : DiskManager

/-- The constructor: every frame fresh, every frame id on the free list
(pushed back in order 0, 1, ...). -/
def BufferPoolManager.init (pool_size : Nat) : BufferPoolManager :=
  { pages := List.replicate pool_size default
    page_table := fun _ => none
    free_list := List.range pool_size
    replacer := ClockReplacer.init pool_size
    disk := DiskManager.init }

/-- Update the page table at one page id. -/
def ptSet (pt : Int → Option Nat) (pid : Int) (v : Option Nat) : Int → Option Nat :=
  fun q => if q = pid then v else pt q

/-- Replace one frame of the frame array. -/
def BufferPoolManager.setPage (m : BufferPoolManager) (fid : Nat) (p : Page) :
    BufferPoolManager :=
  { m with pages := m.pages.set fid p }

/-- The common tail of the miss path of `FetchPageImpl` and of the
replacer branch of `NewPageImpl`: write the victim frame back if dirty and
erase its old page id from the table (`FetchPageImpl` lines 73-79). -/
def BufferPoolManager.evictFrame (m : BufferPoolManager) (fid : Nat) :
    BufferPoolManager :=
  let p := m.pages.getD fid default
  let m1 := if p.is_dirty then { m with disk := m.disk.WritePage p.page_id p.data } else m
  { m1 with page_table := ptSet m1.page_table p.page_id none }

/-- `BufferPoolManager::FetchPageImpl`.  Returns the frame id of the returned
`Page*` (`none` for `nullptr`).  On a page-table hit the pin count is
incremented and the frame returned immediately; note that, as in the C++
source, `replacer_->Pin(fid)` is NOT called on this path.  On a miss a frame
is taken from the free list (from the back) or from the replacer; the victim
is written back if dirty, the table is updated, and the frame is filled from
disk with `pin_count = 1`.  As in the source, `is_dirty_` is not reset on the
miss path. -/
def BufferPoolManager.fetchMissTail (m : BufferPoolManager) (page_id : Int)
    (fid : Nat) : Option Nat × BufferPoolManager :=
  let m2 := m.evictFrame fid
  let p := m2.pages.getD fid default
  let m3 := { m2 with page_table := ptSet m2.page_table page_id (some fid) }
  (some fid, m3.setPage fid
    { p with data := m3.disk.ReadPage page_id, pin_count := 1, page_id := page_id })

def BufferPoolManager.FetchPageImpl (m : BufferPoolManager) (page_id : Int) :
    Option Nat × BufferPoolManager :=
  match m.page_table page_id with
  | some fid =>
    let p := m.pages.getD fid default
    (some fid, m.setPage fid { p with pin_count := p.pin_count + 1 })
  | none =>
    match m.free_list.getLast? with
    | some fid =>
      BufferPoolManager.fetchMissTail
        { m with free_list := m.free_list.dropLast } page_id fid
    | none =>
      match m.replacer.Victim with
      | (some fid, r) =>
        BufferPoolManager.fetchMissTail { m with replacer := r } page_id fid
      | (none, r) =>
        -- return nullptr, keeping the replacer state mutated by the failed scan
        (none, { m with replacer := r })

/-- `BufferPoolManager::UnpinPageImpl`. -/
def BufferPoolManager.UnpinPageImpl (m : BufferPoolManager) (page_id : Int)
    (is_dirty : Bool) : Bool × BufferPoolManager :=
  match m.page_table page_id with
  | none => (false, m)
  | some fid =>
    let p := m.pages.getD fid default
    if p.pin_count = 0 then (false, m)
    else
      let p1 := { p with pin_count := p.pin_count - 1 }
      let m1 :=
        if p1.pin_count = 0 then { m with replacer := m.replacer.Unpin fid } else m
      (true, m1.setPage fid { p1 with is_dirty := p1.is_dirty || is_dirty })

/-- `BufferPoolManager::FlushPageImpl`.  The C++ source asserts
`page_id != INVALID_PAGE_ID`; the claims about this function all carry that
hypothesis, so the assertion branch is modelled as a plain `false` return.
If the page is absent from the table, or resident but clean, the function
returns `false`; only a resident dirty page is written out, has its dirty
bit cleared, and yields `true`. -/
def BufferPoolManager.FlushPageImpl (m : BufferPoolManager) (page_id : Int) :
    Bool × BufferPoolManager :=
  if page_id = -1 then (false, m)
  else
    match m.page_table page_id with
    | none => (false, m)
    | some fid =>
      let p := m.pages.getD fid default
      if !p.is_dirty then (false, m)
      else
        (true,
          { m with
            disk := m.disk.WritePage page_id p.data
            pages := m.pages.set fid { p with is_dirty := false } })

/-- `BufferPoolManager::NewPageImpl`.  Returns `(page_id, frame_id)` on
success.  The free-list branch performs no write-back and no table erase;
only the replacer branch evicts.  The new frame is installed with zeroed
data, `pin_count = 1` and `is_dirty = true`. -/
def BufferPoolManager.newPageTail (m : BufferPoolManager) (fid : Nat) :
    Option (Int × Nat) × BufferPoolManager :=
  let (pid, d) := m.disk.AllocatePage
  let m2 := { m with disk := d, page_table := ptSet m.page_table pid (some fid) }
  (some (pid, fid), m2.setPage fid
    { page_id := pid, pin_count := 1, is_dirty := true, data := 0 })

def BufferPoolManager.NewPageImpl (m : BufferPoolManager) :
    Option (Int × Nat) × BufferPoolManager :=
  match m.free_list.getLast? with
  | some fid =>
    BufferPoolManager.newPageTail { m with free_list := m.free_list.dropLast } fid
  | none =>
    match m.replacer.Victim with
    | (some fid, r) =>
      BufferPoolManager.newPageTail (({ m with replacer := r }).evictFrame fid) fid
    | (none, r) => (none, { m with replacer := r })

/-- `BufferPoolManager::DeletePageImpl`.  As in the source, the frame's
`page_id` is reset but its dirty bit is NOT cleared, the frame id is pushed
to the back of the free list, and the frame is not removed from the
replacer. -/
def BufferPoolManager.DeletePageImpl (m : BufferPoolManager) (page_id : Int) :
    Bool × BufferPoolManager :=
  match m.page_table page_id with
  | none => (true, m)
  | some fid =>
    let p := m.pages.getD fid default
    if 0 < p.pin_count then (false, m)
    else
      (true,
        { m with
          page_table := ptSet m.page_table page_id none
          pages := m.pages.set fid { p with page_id := -1 }
          free_list := m.free_list ++ [fid] })

/-- A client write through the pinned `Page*` returned by fetch/new: store a
value into the frame's data buffer (the `write(p, "A")` step of scenario E1).
It touches only the buffer bytes; the dirty bit is communicated later via
`unpin_page`. -/
def BufferPoolManager.writeData (m : BufferPoolManager) (page_id : Int) (v : Nat) :
    BufferPoolManager :=
  match m.page_table page_id with
  | none => m
  | some fid =>
    let p := m.pages.getD fid default
    m.setPage fid { p with data := v }

/-! ### HashTableBlockPage (src/storage/page/hash_table_block_page.cpp)

Keys and values are the `int` instantiation (`LinearProbeHashTable<int, int,
IntComparator>`), modelled as `Nat`; the comparator is equality.  The
`occupied_` / `readable_` bit arrays are modelled one `Bool` per slot (the
C++ packs eight slots per byte; the per-slot semantics is identical).  The
slot count `BLOCK_ARRAY_SIZE` is the parameter `N` below. -/

structure HashTableBlockPage where
  occupied : List Bool
  readable : List Bool
  array : List (Nat × Nat)
deriving DecidableEq

/-- A freshly `NewPage`d (zeroed) block page. -/
def zeroBlock (N : Nat) : HashTableBlockPage :=
  { occupied := List.replicate N false
    readable := List.replicate N false
    array := List.replicate N (0, 0) }

def HashTableBlockPage.KeyAt (b : HashTableBlockPage) (bucket_ind : Nat) : Nat :=
  (b.array.getD bucket_ind (0, 0)).1

def HashTableBlockPage.ValueAt (b : HashTableBlockPage) (bucket_ind : Nat) : Nat :=
  (b.array.getD bucket_ind (0, 0)).2

def HashTableBlockPage.IsOccupied (b : HashTableBlockPage) (bucket_ind : Nat) : Bool :=
  b.occupied.getD bucket_ind false

def HashTableBlockPage.IsReadable (b : HashTableBlockPage) (bucket_ind : Nat) : Bool :=
  b.readable.getD bucket_ind false

/-- `HashTableBlockPage::Insert`: refuse any slot whose occupied bit is set,
else store the pair and set both bits. -/
def HashTableBlockPage.Insert (b : HashTableBlockPage) (bucket_ind : Nat)
    (key value : Nat) : Bool × HashTableBlockPage :=
  if b.IsOccupied bucket_ind then (false, b)
  else
    (true,
      { occupied := b.occupied.set bucket_ind true
        readable := b.readable.set bucket_ind true
        array := b.array.set bucket_ind (key, value) })

/-- `HashTableBlockPage::Remove`: clear the readable bit only; the occupied
bit stays set (tombstone). -/
def HashTableBlockPage.Remove (b : HashTableBlockPage) (bucket_ind : Nat) :
    HashTableBlockPage :=
  { b with readable := b.readable.set bucket_ind false }

/-! ### HashTableHeaderPage (src/storage/page/hash_table_header_page.cpp)

The `lsn_` and `page_id_` fields are never used by the hash-table code and
are omitted; `next_ind_` is the length of the modelled id list. -/

structure HashTableHeaderPage where
  size : Nat
  block_page_ids : List Nat
deriving DecidableEq

def HashTableHeaderPage.GetBlockPageId (h : HashTableHeaderPage) (index : Nat) : Nat :=
  h.block_page_ids.getD index 0

def HashTableHeaderPage.AddBlockPageId (h : HashTableHeaderPage) (page_id : Nat) :
    HashTableHeaderPage :=
  { h with block_page_ids := h.block_page_ids ++ [page_id] }

def HashTableHeaderPage.NumBlocks (h : HashTableHeaderPage) : Nat :=
  h.block_page_ids.length

def HashTableHeaderPage.SetSize (h : HashTableHeaderPage) (size : Nat) :
    HashTableHeaderPage :=
  { h with size := size }

def HashTableHeaderPage.GetSize (h : HashTableHeaderPage) : Nat := h.size

/-! ### The page store backing the index

The hash table reaches its pages exclusively through
`buffer_pool_manager_->FetchPage / NewPage / UnpinPage / DeletePage`.  For
the index-level claims the buffer pool is abstracted to the page mapping it
implements (a pool large enough never to fail): `NewPage` hands out the next
page id with zeroed content, `FetchPage` is lookup, writes through a pinned
page pointer are store updates, and latches/pin counts are dropped.  Page
ids here are the Nats produced by the monotone allocator. -/

inductive StoredPage where
  | header (h : HashTableHeaderPage)
  | block (b : HashTableBlockPage)
deriving DecidableEq

structure PageStore where
  mem : Nat → Option StoredPage
  next_pid : Nat

def PageStore.empty : PageStore := { mem := fun _ => none, next_pid := 0 }

def PageStore.writePage (ps : PageStore) (pid : Nat) (p : StoredPage) : PageStore :=
  { ps with mem := fun q => if q = pid then some p else ps.mem q }

/-- `NewPage` through the abstracted pool: allocate the next page id and
install the given (zeroed) content. -/
def PageStore.NewPage (ps : PageStore) (p : StoredPage) : Nat × PageStore :=
  (ps.next_pid, { mem := fun q => if q = ps.next_pid then some p else ps.mem q
                  next_pid := ps.next_pid + 1 })

def PageStore.DeletePage (ps : PageStore) (pid : Nat) : PageStore :=
  { ps with mem := fun q => if q = pid then none else ps.mem q }

/-- `reinterpret_cast<HashTableBlockPage *>` of a fetched page.  In every
state the claims touch the id does map to a block page; the default is never
reached there. -/
def fetchBlock (ps : PageStore) (pid : Nat) : HashTableBlockPage :=
  match ps.mem pid with
  | some (StoredPage.block b) => b
  | _ => zeroBlock 0

/-- `reinterpret_cast<HashTableHeaderPage *>` of a fetched page. -/
def fetchHeader (ps : PageStore) (pid : Nat) : HashTableHeaderPage :=
  match ps.mem pid with
  | some (StoredPage.header h) => h
  | _ => { size := 0, block_page_ids := [] }

/-! ### LinearProbeHashTable (src/container/hash/linear_probe_hash_table.cpp) -/

/-- The in-memory fields of `LinearProbeHashTable` plus the page store it
lives on. -/
structure LinearProbeHashTable where
  store : PageStore
  header_page_id : Nat
  num_buckets : Nat
  num_blocks : Nat
  size : Nat

/-- `size_t` wrap-around of `n - 1` (`(num_buckets - 1) / BLOCK_ARRAY_SIZE + 1`
underflows for `num_buckets = 0`). -/
def sizeTPred (n : Nat) : Nat := (n + (2 ^ 64 - 1)) % 2 ^ 64

/-- Allocate `n` zeroed block pages in order, returning their ids (the order
in which the constructor / `Resize` call `AddBlockPageId`). -/
def allocBlocks (N : Nat) : Nat → PageStore → List Nat × PageStore
  | 0, ps => ([], ps)
  | n + 1, ps =>
    let (pid, ps1) := ps.NewPage (StoredPage.block (zeroBlock N))
    let (rest, ps2) := allocBlocks N n ps1
    (pid :: rest, ps2)

/-- The creating constructor (lines 26-47): allocate a header page, set its
size to 0, allocate `(num_buckets - 1) / N + 1` zeroed block pages and record
their ids in the header. -/
def mkLinearProbeHashTable (N num_buckets : Nat) : LinearProbeHashTable :=
  let (hpid, ps1) := PageStore.empty.NewPage
    (StoredPage.header { size := 0, block_page_ids := [] })
  let nblocks := sizeTPred num_buckets / N + 1
  let (ids, ps2) := allocBlocks N nblocks ps1
  let ps3 := ps2.writePage hpid (StoredPage.header { size := 0, block_page_ids := ids })
  { store := ps3, header_page_id := hpid, num_buckets := num_buckets
    num_blocks := nblocks, size := 0 }

/-- The reopening constructor (lines 49-65): point at an existing header
page, read `num_blocks_` from it; `size_` is initialised to 0 by the member
initialiser list and never read from the header. -/
def openLinearProbeHashTable (ps : PageStore) (num_buckets : Nat)
    (header_page_id : Nat) : LinearProbeHashTable :=
  { store := ps, header_page_id := header_page_id, num_buckets := num_buckets
    num_blocks := (fetchHeader ps header_page_id).NumBlocks, size := 0 }

/-- The probe loop of `GetValue` (lines 78-98): `rem` is the remaining
iteration count of `for (i = 0; i < num_buckets_; i++)`, `acc` the result
vector.  A non-occupied slot breaks the loop; a readable slot with matching
key appends its value. -/
def getValueLoop (N : Nat) (s : LinearProbeHashTable) (hdr : HashTableHeaderPage)
    (key : Nat) (offset : Nat) (acc : List Nat) : Nat → List Nat
  | 0 => acc
  | rem + 1 =>
    let pid := hdr.GetBlockPageId (offset / N)
    let block := fetchBlock s.store pid
    let bucket_ind := offset % N
    if !block.IsOccupied bucket_ind then acc
    else
      let acc1 :=
        if block.IsReadable bucket_ind && (block.KeyAt bucket_ind == key) then
          acc ++ [block.ValueAt bucket_ind]
        else acc
      getValueLoop N s hdr key ((offset + 1) % s.num_buckets) acc1 rem

/-- `LinearProbeHashTable::GetValue` (lines 70-104): probe from
`hash(key) % num_buckets`; the function returns `true` unconditionally
(line 103). -/
def LinearProbeHashTable.GetValue (N : Nat) (hashFn : Nat → Nat)
    (s : LinearProbeHashTable) (key : Nat) : List Nat × Bool :=
  let hdr := fetchHeader s.store s.header_page_id
  (getValueLoop N s hdr key (hashFn key % s.num_buckets) [] s.num_buckets, true)

/-- The success branch of the insert probe loop (lines 139-150): write the
updated block page back, bump `size_`, and store it in the header.  `off` is
the global bucket index being claimed. -/
def applyIns (N : Nat) (s : LinearProbeHashTable) (hdr : HashTableHeaderPage)
    (off key value : Nat) : LinearProbeHashTable :=
  let pid := hdr.GetBlockPageId (off / N)
  let block := fetchBlock s.store pid
  let b2 := (block.Insert (off % N) key value).2
  let sz := s.size + 1
  let ps := (s.store.writePage pid (StoredPage.block b2)).writePage
    s.header_page_id (StoredPage.header (hdr.SetSize sz))
  { s with store := ps, size := sz }

/-- The probe loop of `Insert` (lines 120-155).  At each slot: an exact
`(key, value)` duplicate on a readable slot returns `false`; otherwise
`block.Insert` is attempted, succeeding exactly when the slot is
unoccupied.  (The C++ nests the value test inside the readable-and-key test;
the flattened condition is equivalent because a failed inner test falls
through to the same `block->Insert` call.) -/
def insertLoop (N : Nat) (s : LinearProbeHashTable) (hdr : HashTableHeaderPage)
    (key value : Nat) (offset : Nat) : Nat → Bool × LinearProbeHashTable
  | 0 => (false, s)
  | rem + 1 =>
    let pid := hdr.GetBlockPageId (offset / N)
    let block := fetchBlock s.store pid
    let bucket_ind := offset % N
    if block.IsReadable bucket_ind && (block.KeyAt bucket_ind == key)
        && (block.ValueAt bucket_ind == value) then
      (false, s)
    else if (block.Insert bucket_ind key value).1 then
      (true, applyIns N s hdr offset key value)
    else
      insertLoop N s hdr key value ((offset + 1) % s.num_buckets) rem

/-- The reinsertion scan of one old block page during `Resize`
(lines 235-239): for each readable slot call `Insert` on the (new) table.
`ins` is the recursive `Insert` call with the current fuel. -/
def reinsertSlots (ins : LinearProbeHashTable → Nat → Nat → LinearProbeHashTable)
    (b : HashTableBlockPage) (bucket_ind : Nat) :
    Nat → LinearProbeHashTable → LinearProbeHashTable
  | 0, s => s
  | rem + 1, s =>
    let s1 := if b.IsReadable bucket_ind then ins s (b.KeyAt bucket_ind) (b.ValueAt bucket_ind)
      else s
    reinsertSlots ins b (bucket_ind + 1) rem s1

/-- The outer reinsertion loop of `Resize` (lines 232-241): fetch each old
block page, reinsert its readable slots, then `DeletePage` it. -/
def reinsertBlocks (N : Nat)
    (ins : LinearProbeHashTable → Nat → Nat → LinearProbeHashTable)
    (old_header : HashTableHeaderPage) (i : Nat) :
    Nat → LinearProbeHashTable → LinearProbeHashTable
  | 0, s => s
  | rem + 1, s =>
    let pid := old_header.GetBlockPageId i
    let b := fetchBlock s.store pid
    let s1 := reinsertSlots ins b 0 N s
    let s2 := { s1 with store := s1.store.DeletePage pid }
    reinsertBlocks N ins old_header (i + 1) rem s2

/-- The body of `LinearProbeHashTable::Resize` (lines 216-243),
parameterised by the `Insert` call used for the reinsertions (the recursive
`Insert` at the current nesting budget): double the bucket count, allocate a
fresh header (its `size` field set to the new `num_buckets_`) and fresh
zeroed block pages, reset `size_` to 0, reinsert every readable slot of the
old directory, deleting old pages along the way. -/
def resizeWith (N : Nat) (ins : LinearProbeHashTable → Nat → Nat → LinearProbeHashTable)
    (s : LinearProbeHashTable) (initial_size : Nat) : LinearProbeHashTable :=
  let old_header_page_id := s.header_page_id
  let old_header := fetchHeader s.store old_header_page_id
  let nb := 2 * initial_size % 2 ^ 64
  let nblocks := sizeTPred nb / N + 1
  let np := s.store.NewPage (StoredPage.header { size := 0, block_page_ids := [] })
  let hpid := np.1
  let ps1 := np.2
  let ab := allocBlocks N nblocks ps1
  let ids := ab.1
  let ps2 := ab.2
  let ps3 := ps2.writePage hpid (StoredPage.header { size := nb, block_page_ids := ids })
  let s1 : LinearProbeHashTable :=
    { store := ps3, header_page_id := hpid, num_buckets := nb
      num_blocks := nblocks, size := 0 }
  let s2 := reinsertBlocks N ins old_header 0 old_header.NumBlocks s1
  { s2 with store := s2.store.DeletePage old_header_page_id }

/-- `LinearProbeHashTable::Insert` (lines 110-160), with a fuel bounding the
depth of `Insert`/`Resize` nesting; with any positive fuel the fuel-out
branch is unreachable from well-formed states (a resize never re-triggers
during its own reinsertions, proved below).  `Insert` at fuel `fuel + 1`
resizes — when `size_ == num_buckets_` — via the resize body whose
reinsertions run `Insert` at fuel `fuel`, exactly the mutual recursion of
the source. -/
def LinearProbeHashTable.Insert (N : Nat) (hashFn : Nat → Nat) :
    Nat → LinearProbeHashTable → Nat → Nat → Bool × LinearProbeHashTable
  | 0, s, _, _ => (false, s)
  | fuel + 1, s, key, value =>
    let s1 := if s.size = s.num_buckets then
      resizeWith N (fun t k v => (LinearProbeHashTable.Insert N hashFn fuel t k v).2)
        s s.size
      else s
    let hdr := fetchHeader s1.store s1.header_page_id
    insertLoop N s1 hdr key value (hashFn key % s1.num_buckets) s1.num_buckets

/-- `LinearProbeHashTable::Resize` as a standalone entry point: the resize
body with the reinsertions running `Insert` at the given fuel. -/
def LinearProbeHashTable.Resize (N : Nat) (hashFn : Nat → Nat)
    (fuel : Nat) (s : LinearProbeHashTable) (initial_size : Nat) :
    LinearProbeHashTable :=
  resizeWith N (fun t k v => (LinearProbeHashTable.Insert N hashFn fuel t k v).2)
    s initial_size

/-- The success branch of the remove probe loop (lines 186-198): clear the
readable bit, decrement `size_` (a `size_t`, hence the wrapping predecessor)
and store it in the header. -/
def applyRem (N : Nat) (s : LinearProbeHashTable) (hdr : HashTableHeaderPage)
    (off : Nat) : LinearProbeHashTable :=
  let pid := hdr.GetBlockPageId (off / N)
  let block := fetchBlock s.store pid
  let b2 := block.Remove (off % N)
  let sz := sizeTPred s.size
  let ps := (s.store.writePage pid (StoredPage.block b2)).writePage
    s.header_page_id (StoredPage.header (hdr.SetSize sz))
  { s with store := ps, size := sz }

/-- The probe loop of `Remove` (lines 173-205): break (returning `false`) on
a non-occupied slot; on a readable slot holding exactly `(key, value)` remove
it and return `true`. -/
def removeLoop (N : Nat) (s : LinearProbeHashTable) (hdr : HashTableHeaderPage)
    (key value : Nat) (offset : Nat) : Nat → Bool × LinearProbeHashTable
  | 0 => (false, s)
  | rem + 1 =>
    let pid := hdr.GetBlockPageId (offset / N)
    let block := fetchBlock s.store pid
    let bucket_ind := offset % N
    if !block.IsOccupied bucket_ind then (false, s)
    else if block.IsReadable bucket_ind && (block.KeyAt bucket_ind == key)
        && (block.ValueAt bucket_ind == value) then
      (true, applyRem N s hdr offset)
    else
      removeLoop N s hdr key value ((offset + 1) % s.num_buckets) rem

/-- `LinearProbeHashTable::Remove` (lines 166-210). -/
def LinearProbeHashTable.Remove (N : Nat) (hashFn : Nat → Nat)
    (s : LinearProbeHashTable) (key value : Nat) : Bool × LinearProbeHashTable :=
  let hdr := fetchHeader s.store s.header_page_id
  removeLoop N s hdr key value (hashFn key % s.num_buckets) s.num_buckets

/-- `LinearProbeHashTable::GetSize`. -/
def LinearProbeHashTable.GetSize (s : LinearProbeHashTable) : Nat := s.size

/-! ### Reasoning accessors for the index

Derived views of a `LinearProbeHashTable` state used to state and prove the
claims; they introduce no behaviour of their own. -/

/-- The header page the table currently points at. -/
def hdrOf (s : LinearProbeHashTable) : HashTableHeaderPage :=
  fetchHeader s.store s.header_page_id

/-- The block page holding global bucket `off`. -/
def bucketBlock (N : Nat) (s : LinearProbeHashTable) (off : Nat) : HashTableBlockPage :=
  fetchBlock s.store ((hdrOf s).GetBlockPageId (off / N))

/-- The occupied bit of global bucket `off`. -/
def occAt (N : Nat) (s : LinearProbeHashTable) (off : Nat) : Bool :=
  (bucketBlock N s off).IsOccupied (off % N)

/-- The readable bit of global bucket `off`. -/
def readAt (N : Nat) (s : LinearProbeHashTable) (off : Nat) : Bool :=
  (bucketBlock N s off).IsReadable (off % N)

/-- The key stored at global bucket `off`. -/
def keyAt (N : Nat) (s : LinearProbeHashTable) (off : Nat) : Nat :=
  (bucketBlock N s off).KeyAt (off % N)

/-- The value stored at global bucket `off`. -/
def valAt (N : Nat) (s : LinearProbeHashTable) (off : Nat) : Nat :=
  (bucketBlock N s off).ValueAt (off % N)

/-- Bucket `off` holds `(key, value)` as a live (readable) pair — the
condition on which the insert loop reports a duplicate and the remove loop
removes. -/
def dupB (N : Nat) (s : LinearProbeHashTable) (key value off : Nat) : Bool :=
  readAt N s off && (keyAt N s off == key) && (valAt N s off == value)

/-- The live pairs of slots `[bucket_ind, bucket_ind + rem)` of one block, in
slot order (the order `Resize` rescues them in). -/
def blockLiveAux (b : HashTableBlockPage) (bucket_ind : Nat) : Nat → List (Nat × Nat)
  | 0 => []
  | rem + 1 =>
    (if b.IsReadable bucket_ind then [(b.KeyAt bucket_ind, b.ValueAt bucket_ind)] else [])
      ++ blockLiveAux b (bucket_ind + 1) rem

/-- The live pairs of blocks `[i, i + rem)` of a directory, in directory
order. -/
def liveBlocksAux (N : Nat) (ps : PageStore) (hdr : HashTableHeaderPage) (i : Nat) :
    Nat → List (Nat × Nat)
  | 0 => []
  | rem + 1 =>
    blockLiveAux (fetchBlock ps (hdr.GetBlockPageId i)) 0 N
      ++ liveBlocksAux N ps hdr (i + 1) rem

/-- All live `(key, value)` pairs currently stored in the table's directory,
in directory order. -/
def liveList (N : Nat) (s : LinearProbeHashTable) : List (Nat × Nat) :=
  liveBlocksAux N s.store (hdrOf s) 0 (hdrOf s).NumBlocks

/-- How many of the table's `num_buckets` buckets have their occupied bit
set. -/
def occCount (N : Nat) (s : LinearProbeHashTable) : Nat :=
  ((List.range s.num_buckets).filter (fun off => occAt N s off)).length

/-- Does this page id hold a header page. -/
def isHeaderB (ps : PageStore) (pid : Nat) : Bool :=
  match ps.mem pid with
  | some (StoredPage.header _) => true
  | _ => false

/-- Does this page id hold a block page. -/
def isBlockB (ps : PageStore) (pid : Nat) : Bool :=
  match ps.mem pid with
  | some (StoredPage.block _) => true
  | _ => false

/-- The three arrays of a block page have the full `BLOCK_ARRAY_SIZE`
length. -/
def blockSized (N : Nat) (b : HashTableBlockPage) : Prop :=
  b.occupied.length = N ∧ b.readable.length = N ∧ b.array.length = N

instance (N : Nat) (b : HashTableBlockPage) : Decidable (blockSized N b) := by
  unfold blockSized; infer_instance

/-- Structural well-formedness of an index state: the header id resolves to a
header page; every bucket lies inside the directory; every directory entry
resolves to a block page of full size whose readable bits imply occupied
bits; directory entries are distinct, distinct from the header page, and all
below the allocation cursor. -/
def WFidx (N : Nat) (s : LinearProbeHashTable) : Prop :=
  isHeaderB s.store s.header_page_id = true
    ∧ s.num_buckets ≤ (hdrOf s).NumBlocks * N
    ∧ (∀ i < (hdrOf s).NumBlocks, isBlockB s.store ((hdrOf s).GetBlockPageId i) = true)
    ∧ (∀ i < (hdrOf s).NumBlocks, blockSized N (fetchBlock s.store ((hdrOf s).GetBlockPageId i)))
    ∧ (∀ i < (hdrOf s).NumBlocks, ∀ ind < N,
        (fetchBlock s.store ((hdrOf s).GetBlockPageId i)).IsReadable ind = true →
        (fetchBlock s.store ((hdrOf s).GetBlockPageId i)).IsOccupied ind = true)
    ∧ (hdrOf s).block_page_ids.Nodup
    ∧ s.header_page_id ∉ (hdrOf s).block_page_ids
    ∧ s.header_page_id < s.store.next_pid
    ∧ (∀ i < (hdrOf s).NumBlocks, (hdrOf s).GetBlockPageId i < s.store.next_pid)

instance (N : Nat) (s : LinearProbeHashTable) : Decidable (WFidx N s) := by
  unfold WFidx; infer_instance

/-! ## Shared helper lemmas -/

theorem getD_set_self {α} (l : List α) (i : Nat) (x d : α) (h : i < l.length) :
    (l.set i x).getD i d = x := by
  simp [List.getD, List.getElem?_set_eq_of_lt, h]

theorem getD_set_ne {α} (l : List α) (i j : Nat) (x d : α) (h : j ≠ i) :
    (l.set i x).getD j d = l.getD j d := by
  simp [List.getD, List.getElem?_set_ne, Ne.symm h]

theorem filter_length_lt_exists_false (l : List Nat) (p : Nat → Bool)
    (h : (l.filter p).length < l.length) : ∃ x ∈ l, p x = false := by
  by_contra hc
  push_neg at hc
  have h2 : l.filter p = l := List.filter_eq_self.2 (by intro a ha; simpa using hc a ha)
  rw [h2] at h
  omega

theorem nodup_getD_ne (l : List Nat) (h : l.Nodup) (i j : Nat) (hi : i < l.length)
    (hj : j < l.length) (hne : i ≠ j) (d : Nat) : l.getD i d ≠ l.getD j d := by
  simp only [List.getD_eq_getElem?_getD, List.getElem?_eq_getElem, hi, hj, Option.getD_some]
  exact fun hc => hne (List.Nodup.getElem_inj_iff h |>.1 hc)

theorem add_mod_inj (a b c n : Nat) (hb : b < n) (hc : c < n)
    (h : (a + b) % n = (a + c) % n) : b = c := by
  have h2 : b ≡ c [MOD n] := Nat.ModEq.add_left_cancel (Nat.ModEq.refl a) h
  have h3 : b % n = c % n := h2
  rwa [Nat.mod_eq_of_lt hb, Nat.mod_eq_of_lt hc] at h3

/-! ## Claim C1 -/

/-- Claim C1 (the code violates it): starting from a pool of size 1, the
sequence `new_page` (pid 0 in frame 0), `unpin_page(0, clean)` (frame 0
enters the replacer), `fetch_page(0)` (a page-table hit) leaves frame 0 with
`pin_count = 1` while the frame is still contained in the replacer, because
the hit path of `FetchPageImpl` increments the pin count without calling
`replacer_->Pin`.  A further `new_page` then evicts the pinned page: pid 0
disappears from the page table although its pin count is still 1. -/
theorem fetch_hit_leaves_pinned_frame_in_replacer :
    let m1 : BufferPoolManager := (BufferPoolManager.init 1).NewPageImpl.2
    let m2 := (m1.UnpinPageImpl 0 false).2
    let m3 := (m2.FetchPageImpl 0).2
    (m3.pages.getD 0 default).pin_count = 1
      ∧ m3.replacer.containsFrame 0 = true
      ∧ m3.NewPageImpl.2.page_table 0 = none
      ∧ (m3.NewPageImpl.2.pages.getD 0 default).pin_count = 1 := by decide

/-! ## Claim C2 -/

/-- Claim C2 (scenario E1): on a pool of size 2, after `new_page` (pid 0),
writing 65 into it, `unpin(0, dirty)`, `new_page` (pid 1), `unpin(1, clean)`,
`new_page` (pid 2), `unpin(2, clean)`, page 0 has been evicted (it is absent
from the page table), and `fetch_page(0)` returns a frame whose data again
reads 65: the dirty contents were written back to disk on eviction and
re-read on the next fetch. -/
theorem e1_eviction_writeback_roundtrip :
    let m1 : BufferPoolManager := (BufferPoolManager.init 2).NewPageImpl.2
    let m2 := (m1.writeData 0 65).UnpinPageImpl 0 true
    let m3 := m2.2.NewPageImpl.2.UnpinPageImpl 1 false
    let m4 := m3.2.NewPageImpl.2.UnpinPageImpl 2 false
    let r := m4.2.FetchPageImpl 0
    m4.2.page_table 0 = none
      ∧ r.1 = some 0
      ∧ (r.2.pages.getD 0 default).data = 65 := by decide

/-! ## Claim C3 -/

/-- Claim C3 is violated by the code: with pid 0 resident and clean (it was
just flushed), `flush_page(0)` returns `false` even though 0 is present in
the page table — `FlushPageImpl` bails out with `false` on `!IsDirty`. -/
theorem flush_clean_resident_returns_false :
    let m1 := (BufferPoolManager.init 1).NewPageImpl.2
    let m2 := (m1.FlushPageImpl 0).2
    (m2.FlushPageImpl 0).1 = false ∧ m2.page_table 0 = some 0 := by decide

/-- Claim C3 as amended: for `pid ≠ INVALID_PAGE_ID`, `flush_page(pid)`
returns `true` iff `pid` is resident AND dirty; in exactly that case it
writes the frame's buffer to the disk block of `pid` and clears the frame's
dirty bit (touching nothing else of the page list), and whenever it returns
`false` — `pid` absent, or resident but clean — the manager state is
returned unchanged, so no write happens. -/
theorem flushPage_true_iff_resident_and_dirty (m : BufferPoolManager) (pid : Int)
    (h : pid ≠ -1) :
    ((m.FlushPageImpl pid).1 = true ↔
      ∃ fid, m.page_table pid = some fid
        ∧ (m.pages.getD fid default).is_dirty = true)
    ∧ (∀ fid, m.page_table pid = some fid →
        (m.pages.getD fid default).is_dirty = true →
        (m.FlushPageImpl pid).2.disk.blocks pid = (m.pages.getD fid default).data
        ∧ (m.FlushPageImpl pid).2.pages
            = m.pages.set fid { m.pages.getD fid default with is_dirty := false })
    ∧ ((m.FlushPageImpl pid).1 = false → (m.FlushPageImpl pid).2 = m) := by
  cases hpt : m.page_table pid with
  | none =>
    have hstep : m.FlushPageImpl pid = (false, m) := by
      unfold BufferPoolManager.FlushPageImpl
      rw [if_neg h, hpt]
    rw [hstep]
    refine ⟨by simp, ?_, fun _ => rfl⟩
    intro fid hfid
    exact absurd hfid (by simp)
  | some fid =>
    by_cases hd : (m.pages.getD fid default).is_dirty = true
    · have hstep : m.FlushPageImpl pid = (true,
          { m with
            disk := m.disk.WritePage pid (m.pages.getD fid default).data
            pages := m.pages.set fid
              { m.pages.getD fid default with is_dirty := false } }) := by
        unfold BufferPoolManager.FlushPageImpl
        rw [if_neg h, hpt]
        have hd2 := hd
        simp only [List.getD_eq_getElem?_getD] at hd2
        simp [hd2]
      rw [hstep]
      refine ⟨⟨fun _ => ⟨fid, rfl, hd⟩, fun _ => rfl⟩, ?_, ?_⟩
      · intro fid2 hfid2 _
        have heq : fid2 = fid := (Option.some.inj hfid2).symm
        subst heq
        refine ⟨?_, rfl⟩
        show (m.disk.WritePage pid (m.pages.getD fid2 default).data).blocks pid = _
        unfold DiskManager.WritePage
        simp
      · intro hfalse
        exact Bool.noConfusion hfalse
    · have hstep : m.FlushPageImpl pid = (false, m) := by
        unfold BufferPoolManager.FlushPageImpl
        rw [if_neg h, hpt]
        have hd2 := hd
        simp only [Bool.not_eq_true, List.getD_eq_getElem?_getD] at hd2
        simp [hd2]
      rw [hstep]
      refine ⟨⟨fun hfalse => Bool.noConfusion hfalse, ?_⟩, ?_, fun _ => rfl⟩
      · intro ⟨fid2, hfid2, hd2⟩
        have heq : fid2 = fid := (Option.some.inj hfid2).symm
        subst heq
        exact absurd hd2 hd
      · intro fid2 hfid2 hd2
        have heq : fid2 = fid := (Option.some.inj hfid2).symm
        subst heq
        exact absurd hd2 hd

theorem flushPage_true_iff_resident_and_dirty_witness :
    let m1 : BufferPoolManager := (BufferPoolManager.init 1).NewPageImpl.2
    (((m1.FlushPageImpl 0).1 = true ↔
        ∃ fid, m1.page_table 0 = some fid
          ∧ (m1.pages.getD fid default).is_dirty = true)
      ∧ (∀ fid, m1.page_table 0 = some fid →
          (m1.pages.getD fid default).is_dirty = true →
          (m1.FlushPageImpl 0).2.disk.blocks 0 = (m1.pages.getD fid default).data
          ∧ (m1.FlushPageImpl 0).2.pages
              = m1.pages.set fid { m1.pages.getD fid default with is_dirty := false })
      ∧ ((m1.FlushPageImpl 0).1 = false → (m1.FlushPageImpl 0).2 = m1)) :=
  flushPage_true_iff_resident_and_dirty _ 0 (by decide)

/-! ## Claim C7 -/

/-- Claim C7 is violated by the code: `get_value` on a fresh index (no live
entries anywhere) appends nothing to the result yet still returns `true`,
because `GetValue` ends with an unconditional `return true`. -/
theorem getValue_returns_true_on_empty_probe :
    LinearProbeHashTable.GetValue 4 (fun k => k) (mkLinearProbeHashTable 4 4) 5
      = ([], true) := by decide

/-- Claim C7 as amended: `get_value` returns `true` unconditionally,
regardless of whether any value was appended to the result. -/
theorem getValue_always_returns_true (N : Nat) (hashFn : Nat → Nat)
    (s : LinearProbeHashTable) (key : Nat) :
    (LinearProbeHashTable.GetValue N hashFn s key).2 = true := rfl

/-! ## Claim C8 -/

/-- Claim C8 is violated by the code: after one insertion the persisted
header records size 1, but reopening the index from that header yields
`size() = 0` — the open constructor reads `num_blocks` from the header and
leaves `size_` at its member-initialised 0. -/
theorem open_constructor_ignores_persisted_size :
    let t1 := (LinearProbeHashTable.Insert 4 (fun k => k) 1
      (mkLinearProbeHashTable 4 4) 0 7).2
    let o := openLinearProbeHashTable t1.store 4 t1.header_page_id
    (fetchHeader t1.store t1.header_page_id).GetSize = 1 ∧ o.GetSize = 0 := by decide

/-- Claim C8 as amended: the open constructor reads `num_blocks` from the
existing header page but does not read `size` from it; immediately after
reopening, `size()` is 0 regardless of the persisted entry count. -/
theorem open_reads_numblocks_not_size (ps : PageStore) (num_buckets header_page_id : Nat) :
    (openLinearProbeHashTable ps num_buckets header_page_id).GetSize = 0
      ∧ (openLinearProbeHashTable ps num_buckets header_page_id).num_blocks
        = (fetchHeader ps header_page_id).NumBlocks :=
  ⟨rfl, rfl⟩

/-! ## Claim C9 -/

/-- Claim C9 is violated by the code: in a fresh replacer of one frame,
calling `unpin(0)` twice leaves frame 0 in the replacer with its ref flag
still FALSE — `Unpin` inserts without setting `ref`, and the second call is
a pure no-op rather than a second-chance refresh. -/
theorem unpin_fresh_frame_ref_false :
    let r2 := ((ClockReplacer.init 1).Unpin 0).Unpin 0
    r2.containsFrame 0 = true ∧ (r2.bits.getD 0 default).ref = false := by decide

/-- Claim C9 as amended: after `unpin(fid)` the frame is in the replacer,
but its ref flag is exactly what it was before the call (`Unpin` never
writes `ref`; the flag is false for a never-victimised frame and true for a
frame last removed by `victim`), and `unpin` on a frame already in the
replacer leaves the replacer completely unchanged. -/
theorem unpin_inserts_and_preserves_ref (r : ClockReplacer) (fid : Nat)
    (h : fid < r.bits.length) :
    ((r.Unpin fid).bits.getD fid default).in_replacer = true
      ∧ ((r.Unpin fid).bits.getD fid default).ref = (r.bits.getD fid default).ref
      ∧ ((r.bits.getD fid default).in_replacer = true → r.Unpin fid = r) := by
  unfold ClockReplacer.Unpin
  by_cases hin : (r.bits.getD fid default).in_replacer = true
  · simp only [List.getD_eq_getElem?_getD] at hin
    simp [hin]
  · simp only [Bool.not_eq_true, List.getD_eq_getElem?_getD] at hin
    have hset := getD_set_self r.bits fid
      ⟨(r.bits.getD fid default).ref, true⟩ default h
    simp only [List.getD_eq_getElem?_getD] at hset
    simp [hin, hset]

theorem unpin_inserts_and_preserves_ref_witness :
    (((ClockReplacer.init 2).Unpin 0).bits.getD 0 default).in_replacer = true
      ∧ (((ClockReplacer.init 2).Unpin 0).bits.getD 0 default).ref
        = ((ClockReplacer.init 2).bits.getD 0 default).ref
      ∧ (((ClockReplacer.init 2).bits.getD 0 default).in_replacer = true →
          (ClockReplacer.init 2).Unpin 0 = ClockReplacer.init 2) :=
  unpin_inserts_and_preserves_ref (ClockReplacer.init 2) 0 (by decide)

/-! ## Probe-loop characterisations

The loops of `GetValue` / `Insert` / `Remove` are always entered with
`hdr = fetchHeader s.store s.header_page_id = hdrOf s`; at that header their
per-step tests coincide with the bucket accessors `occAt` / `dupB` /
`readAt` / `keyAt` / `valAt`. -/

theorem blockInsert_fst (b : HashTableBlockPage) (i k v : Nat) :
    (b.Insert i k v).1 = !(b.IsOccupied i) := by
  unfold HashTableBlockPage.Insert
  by_cases h : b.IsOccupied i = true <;> simp [h]

theorem insertLoop_step (N : Nat) (s : LinearProbeHashTable) (k v off rem : Nat) :
    insertLoop N s (hdrOf s) k v off (rem + 1) =
      if dupB N s k v off then (false, s)
      else if !(occAt N s off) then (true, applyIns N s (hdrOf s) off k v)
      else insertLoop N s (hdrOf s) k v ((off + 1) % s.num_buckets) rem := by
  have hf := blockInsert_fst (fetchBlock s.store ((hdrOf s).GetBlockPageId (off / N)))
    (off % N) k v
  simp only [insertLoop, hf]
  rfl

theorem getValueLoop_step (N : Nat) (s : LinearProbeHashTable) (k off rem : Nat)
    (acc : List Nat) :
    getValueLoop N s (hdrOf s) k off acc (rem + 1) =
      if !(occAt N s off) then acc
      else getValueLoop N s (hdrOf s) k ((off + 1) % s.num_buckets)
        (if readAt N s off && (keyAt N s off == k) then acc ++ [valAt N s off] else acc)
        rem := rfl

theorem removeLoop_step (N : Nat) (s : LinearProbeHashTable) (k v off rem : Nat) :
    removeLoop N s (hdrOf s) k v off (rem + 1) =
      if !(occAt N s off) then (false, s)
      else if dupB N s k v off then (true, applyRem N s (hdrOf s) off)
      else removeLoop N s (hdrOf s) k v ((off + 1) % s.num_buckets) rem := rfl

/-- If every probed bucket is occupied, the insert loop fails (either via the
duplicate test or by exhausting the scan) and leaves the state untouched. -/
theorem insertLoop_all_occ (N : Nat) (s : LinearProbeHashTable) (k v : Nat) :
    ∀ (rem off : Nat), off < s.num_buckets →
    (∀ i < rem, occAt N s ((off + i) % s.num_buckets) = true) →
    insertLoop N s (hdrOf s) k v off rem = (false, s)
  | 0, off, _, _ => rfl
  | rem + 1, off, hoff, hocc => by
    have h0 : occAt N s off = true := by
      have h := hocc 0 (Nat.succ_pos rem)
      rwa [Nat.add_zero, Nat.mod_eq_of_lt hoff] at h
    rw [insertLoop_step]
    by_cases hdup : dupB N s k v off = true
    · simp [hdup]
    · simp only [Bool.not_eq_true] at hdup
      have hrec := insertLoop_all_occ N s k v rem ((off + 1) % s.num_buckets)
        (Nat.mod_lt _ (Nat.lt_of_le_of_lt (Nat.zero_le off) hoff))
        (by
          intro i hi
          have h := hocc (i + 1) (Nat.succ_lt_succ hi)
          rw [Nat.mod_add_mod, Nat.add_right_comm]
          rwa [← Nat.add_assoc] at h)
      simp [hdup, h0, hrec]

/-! ## Claim C10 -/

/-- Claim C10: once every bucket's occupied bit is set while `size()` is
below `num_buckets` (the tombstone-exhaustion state), every `insert(key,
value)` returns `false` and leaves the state completely unchanged — block
insert refuses occupied slots even when they are mere tombstones, and the
resize is only triggered at `size == num_buckets`, so no resize ever
happens and the failure persists forever. -/
theorem insert_fails_forever_on_full_tombstones (N : Nat) (hashFn : Nat → Nat)
    (s : LinearProbeHashTable) (hsz : s.size < s.num_buckets)
    (hall : ∀ off < s.num_buckets, occAt N s off = true) :
    ∀ k v fuel, LinearProbeHashTable.Insert N hashFn (fuel + 1) s k v = (false, s) := by
  intro k v fuel
  have hnb : 0 < s.num_buckets := Nat.lt_of_le_of_lt (Nat.zero_le _) hsz
  have hne : ¬ (s.size = s.num_buckets) := Nat.ne_of_lt hsz
  simp only [LinearProbeHashTable.Insert, if_neg hne]
  exact insertLoop_all_occ N s k v s.num_buckets (hashFn k % s.num_buckets)
    (Nat.mod_lt _ hnb) (fun i _ => hall _ (Nat.mod_lt _ hnb))

theorem insert_fails_forever_on_full_tombstones_witness :
    let t1 := (LinearProbeHashTable.Insert 4 (fun x => x) 1
      (mkLinearProbeHashTable 4 1) 0 0).2
    let t2 := (LinearProbeHashTable.Remove 4 (fun x => x) t1 0 0).2
    t2.size < t2.num_buckets ∧ (∀ off < t2.num_buckets, occAt 4 t2 off = true)
      ∧ LinearProbeHashTable.Insert 4 (fun x => x) 2 t2 5 5 = (false, t2) := by
  intro t1 t2
  exact ⟨by decide, by decide,
    insert_fails_forever_on_full_tombstones 4 (fun x => x) t2 (by decide) (by decide) 5 5 1⟩

/-- If the probe positions before `j` are occupied non-duplicates, position
`j` is the first unoccupied one and no duplicate is seen up to it, the insert
loop claims exactly position `j`. -/
theorem insertLoop_success (N : Nat) (s : LinearProbeHashTable) (k v : Nat) :
    ∀ (rem off j : Nat), off < s.num_buckets → j < rem →
    (∀ i < j, occAt N s ((off + i) % s.num_buckets) = true) →
    (∀ i ≤ j, dupB N s k v ((off + i) % s.num_buckets) = false) →
    occAt N s ((off + j) % s.num_buckets) = false →
    insertLoop N s (hdrOf s) k v off rem
      = (true, applyIns N s (hdrOf s) ((off + j) % s.num_buckets) k v)
  | 0, _, j, _, hj, _, _, _ => absurd hj (Nat.not_lt_zero j)
  | rem + 1, off, 0, hoff, _, _, hdup, hfree => by
    have hoffm : (off + 0) % s.num_buckets = off := by
      rw [Nat.add_zero, Nat.mod_eq_of_lt hoff]
    rw [hoffm] at hfree
    have hd0 := hdup 0 (Nat.le_refl 0)
    rw [hoffm] at hd0
    rw [insertLoop_step, hoffm]
    simp [hd0, hfree]
  | rem + 1, off, j + 1, hoff, hj, hocc, hdup, hfree => by
    have h0 : occAt N s off = true := by
      have h := hocc 0 (Nat.succ_pos j)
      rwa [Nat.add_zero, Nat.mod_eq_of_lt hoff] at h
    have hd0 : dupB N s k v off = false := by
      have h := hdup 0 (Nat.zero_le _)
      rwa [Nat.add_zero, Nat.mod_eq_of_lt hoff] at h
    have hnb : 0 < s.num_buckets := Nat.lt_of_le_of_lt (Nat.zero_le off) hoff
    have hrec := insertLoop_success N s k v rem ((off + 1) % s.num_buckets) j
      (Nat.mod_lt _ hnb) (Nat.lt_of_succ_lt_succ hj)
      (by
        intro i hi
        have h := hocc (i + 1) (Nat.succ_lt_succ hi)
        rw [Nat.mod_add_mod, Nat.add_right_comm]
        rwa [← Nat.add_assoc] at h)
      (by
        intro i hi
        have h := hdup (i + 1) (Nat.succ_le_succ hi)
        rw [Nat.mod_add_mod, Nat.add_right_comm]
        rwa [← Nat.add_assoc] at h)
      (by
        rw [Nat.mod_add_mod, Nat.add_right_comm]
        rwa [← Nat.add_assoc] at hfree)
    rw [insertLoop_step]
    simp only [hd0, h0, Bool.not_true, if_false, Bool.false_eq_true]
    rw [hrec, Nat.mod_add_mod, Nat.add_right_comm, ← Nat.add_assoc]
  
/-- If the probe positions before `j` are occupied non-duplicates and
position `j` holds an exact `(key, value)` duplicate, the insert loop
reports the duplicate and leaves the state untouched. -/
theorem insertLoop_dup_exit (N : Nat) (s : LinearProbeHashTable) (k v : Nat) :
    ∀ (rem off j : Nat), off < s.num_buckets → j < rem →
    (∀ i < j, occAt N s ((off + i) % s.num_buckets) = true) →
    (∀ i < j, dupB N s k v ((off + i) % s.num_buckets) = false) →
    dupB N s k v ((off + j) % s.num_buckets) = true →
    insertLoop N s (hdrOf s) k v off rem = (false, s)
  | 0, _, j, _, hj, _, _, _ => absurd hj (Nat.not_lt_zero j)
  | rem + 1, off, 0, hoff, _, _, _, hdupj => by
    rw [Nat.add_zero, Nat.mod_eq_of_lt hoff] at hdupj
    rw [insertLoop_step]
    simp [hdupj]
  | rem + 1, off, j + 1, hoff, hj, hocc, hdup, hdupj => by
    have h0 : occAt N s off = true := by
      have h := hocc 0 (Nat.succ_pos j)
      rwa [Nat.add_zero, Nat.mod_eq_of_lt hoff] at h
    have hd0 : dupB N s k v off = false := by
      have h := hdup 0 (Nat.succ_pos j)
      rwa [Nat.add_zero, Nat.mod_eq_of_lt hoff] at h
    have hnb : 0 < s.num_buckets := Nat.lt_of_le_of_lt (Nat.zero_le off) hoff
    have hrec := insertLoop_dup_exit N s k v rem ((off + 1) % s.num_buckets) j
      (Nat.mod_lt _ hnb) (Nat.lt_of_succ_lt_succ hj)
      (by
        intro i hi
        have h := hocc (i + 1) (Nat.succ_lt_succ hi)
        rw [Nat.mod_add_mod, Nat.add_right_comm]
        rwa [← Nat.add_assoc] at h)
      (by
        intro i hi
        have h := hdup (i + 1) (Nat.succ_lt_succ hi)
        rw [Nat.mod_add_mod, Nat.add_right_comm]
        rwa [← Nat.add_assoc] at h)
      (by
        rw [Nat.mod_add_mod, Nat.add_right_comm]
        rwa [← Nat.add_assoc] at hdupj)
    rw [insertLoop_step]
    simp [hd0, h0, hrec]

/-- Inversion of a successful insert loop: success happens at the first
unoccupied probe position, with no duplicate seen on the way, and the result
state is exactly `applyIns` at that position. -/
theorem insertLoop_inv (N : Nat) (s : LinearProbeHashTable) (k v : Nat) :
    ∀ (rem off : Nat) (s2 : LinearProbeHashTable), off < s.num_buckets →
    insertLoop N s (hdrOf s) k v off rem = (true, s2) →
    ∃ j < rem, occAt N s ((off + j) % s.num_buckets) = false
      ∧ (∀ i < j, occAt N s ((off + i) % s.num_buckets) = true)
      ∧ (∀ i ≤ j, dupB N s k v ((off + i) % s.num_buckets) = false)
      ∧ s2 = applyIns N s (hdrOf s) ((off + j) % s.num_buckets) k v
  | 0, off, s2, _, heq => by
    exact absurd (congrArg Prod.fst heq) (by simp [insertLoop])
  | rem + 1, off, s2, hoff, heq => by
    rw [insertLoop_step] at heq
    by_cases hdup : dupB N s k v off = true
    · rw [if_pos hdup] at heq
      exact absurd (congrArg Prod.fst heq) (by simp)
    · simp only [Bool.not_eq_true] at hdup
      rw [if_neg (by simp [hdup])] at heq
      by_cases hocc : occAt N s off = true
      · rw [if_neg (by simp [hocc])] at heq
        have hnb : 0 < s.num_buckets := Nat.lt_of_le_of_lt (Nat.zero_le off) hoff
        obtain ⟨j, hj, hfree, hpre, hnod, hs2⟩ :=
          insertLoop_inv N s k v rem ((off + 1) % s.num_buckets) s2
            (Nat.mod_lt _ hnb) heq
        refine ⟨j + 1, Nat.succ_lt_succ hj, ?_, ?_, ?_, ?_⟩
        · rw [Nat.mod_add_mod, Nat.add_right_comm] at hfree
          rwa [← Nat.add_assoc]
        · intro i hi
          cases i with
          | zero => rwa [Nat.add_zero, Nat.mod_eq_of_lt hoff]
          | succ i =>
            have h := hpre i (Nat.lt_of_succ_lt_succ hi)
            rw [Nat.mod_add_mod, Nat.add_right_comm] at h
            rwa [Nat.add_assoc] at h
        · intro i hi
          cases i with
          | zero => rwa [Nat.add_zero, Nat.mod_eq_of_lt hoff]
          | succ i =>
            have h := hnod i (Nat.le_of_succ_le_succ hi)
            rw [Nat.mod_add_mod, Nat.add_right_comm] at h
            rwa [Nat.add_assoc] at h
        · rw [hs2, Nat.mod_add_mod, Nat.add_right_comm, ← Nat.add_assoc]
      · simp only [Bool.not_eq_true] at hocc
        rw [if_pos (by simp [hocc])] at heq
        refine ⟨0, Nat.succ_pos rem, ?_, ?_, ?_, ?_⟩
        · rwa [Nat.add_zero, Nat.mod_eq_of_lt hoff]
        · intro i hi
          exact absurd hi (Nat.not_lt_zero i)
        · intro i hi
          rw [Nat.le_zero] at hi
          subst hi
          rwa [Nat.add_zero, Nat.mod_eq_of_lt hoff]
        · rw [Nat.add_zero, Nat.mod_eq_of_lt hoff]
          exact (congrArg Prod.snd heq).symm

/-- The get-value loop only ever appends: values already accumulated stay in
the result. -/
theorem getValueLoop_mono (N : Nat) (s : LinearProbeHashTable) (k : Nat) :
    ∀ (rem off : Nat) (acc : List Nat) (v : Nat), v ∈ acc →
    v ∈ getValueLoop N s (hdrOf s) k off acc rem
  | 0, _, _, _, hv => hv
  | rem + 1, off, acc, v, hv => by
    rw [getValueLoop_step]
    by_cases hocc : occAt N s off = true
    · simp only [hocc, Bool.not_true, if_false, Bool.false_eq_true]
      refine getValueLoop_mono N s k rem _ _ v ?_
      by_cases hr : (readAt N s off && (keyAt N s off == k)) = true
      · simp only [hr, if_true]
        exact List.mem_append_left _ hv
      · simp only [Bool.not_eq_true] at hr
        simp only [hr, Bool.false_eq_true, if_false]
        exact hv
    · simp only [Bool.not_eq_true] at hocc
      simp [hocc, hv]

/-- If the probe reaches a readable bucket holding key `k` and value `v`
(all earlier probed buckets being occupied), `v` is in the returned result
list. -/
theorem getValueLoop_hit (N : Nat) (s : LinearProbeHashTable) (k v : Nat) :
    ∀ (rem off j : Nat) (acc : List Nat), off < s.num_buckets → j < rem →
    (∀ i < j, occAt N s ((off + i) % s.num_buckets) = true) →
    occAt N s ((off + j) % s.num_buckets) = true →
    readAt N s ((off + j) % s.num_buckets) = true →
    keyAt N s ((off + j) % s.num_buckets) = k →
    valAt N s ((off + j) % s.num_buckets) = v →
    v ∈ getValueLoop N s (hdrOf s) k off acc rem
  | 0, _, j, _, _, hj, _, _, _, _, _ => absurd hj (Nat.not_lt_zero j)
  | rem + 1, off, 0, acc, hoff, _, _, hocc0, hread, hkey, hval => by
    have hoffm : (off + 0) % s.num_buckets = off := by
      rw [Nat.add_zero, Nat.mod_eq_of_lt hoff]
    rw [hoffm] at hocc0 hread hkey hval
    rw [getValueLoop_step]
    simp only [hocc0, Bool.not_true, if_false, Bool.false_eq_true]
    refine getValueLoop_mono N s k rem _ _ v ?_
    simp [hread, hkey, hval]
  | rem + 1, off, j + 1, acc, hoff, hj, hocc, hocc0, hread, hkey, hval => by
    have h0 : occAt N s off = true := by
      have h := hocc 0 (Nat.succ_pos j)
      rwa [Nat.add_zero, Nat.mod_eq_of_lt hoff] at h
    have hnb : 0 < s.num_buckets := Nat.lt_of_le_of_lt (Nat.zero_le off) hoff
    rw [getValueLoop_step]
    simp only [h0, Bool.not_true, if_false, Bool.false_eq_true]
    refine getValueLoop_hit N s k v rem ((off + 1) % s.num_buckets) j _
      (Nat.mod_lt _ hnb) (Nat.lt_of_succ_lt_succ hj)
      (by
        intro i hi
        have h := hocc (i + 1) (Nat.succ_lt_succ hi)
        rw [Nat.mod_add_mod, Nat.add_right_comm]
        rwa [← Nat.add_assoc] at h)
      ?_ ?_ ?_ ?_
    all_goals rw [Nat.mod_add_mod, Nat.add_right_comm]
    · rwa [← Nat.add_assoc] at hocc0
    · rwa [← Nat.add_assoc] at hread
    · rwa [← Nat.add_assoc] at hkey
    · rwa [← Nat.add_assoc] at hval

/-- If no bucket of the table holds `(k, v)` as a live pair, value `v` can
only appear in the result if it was already in the accumulator. -/
theorem getValueLoop_absent (N : Nat) (s : LinearProbeHashTable) (k v : Nat)
    (hall : ∀ off2 < s.num_buckets, dupB N s k v off2 = false) :
    ∀ (rem off : Nat) (acc : List Nat), off < s.num_buckets → v ∉ acc →
    v ∉ getValueLoop N s (hdrOf s) k off acc rem
  | 0, _, _, _, hacc => hacc
  | rem + 1, off, acc, hoff, hacc => by
    rw [getValueLoop_step]
    by_cases hocc : occAt N s off = true
    · simp only [hocc, Bool.not_true, if_false, Bool.false_eq_true]
      have hnb : 0 < s.num_buckets := Nat.lt_of_le_of_lt (Nat.zero_le off) hoff
      refine getValueLoop_absent N s k v hall rem ((off + 1) % s.num_buckets) _
        (Nat.mod_lt _ hnb) ?_
      by_cases hr : (readAt N s off && (keyAt N s off == k)) = true
      · simp only [hr, if_true]
        intro hmem
        rcases List.mem_append.1 hmem with h | h
        · exact hacc h
        · have hveq : valAt N s off = v := by
            cases List.mem_singleton.1 h
            rfl
          have hd := hall off hoff
          rw [dupB, hr, hveq] at hd
          simp at hd
      · simp only [Bool.not_eq_true] at hr
        simp only [hr, Bool.false_eq_true, if_false]
        exact hacc
    · simp only [Bool.not_eq_true] at hocc
      simp [hocc, hacc]

/-- If the probe positions before `j` are occupied non-matches and position
`j` is an occupied exact `(key, value)` match, the remove loop removes
exactly position `j`. -/
theorem removeLoop_found (N : Nat) (s : LinearProbeHashTable) (k v : Nat) :
    ∀ (rem off j : Nat), off < s.num_buckets → j < rem →
    (∀ i < j, occAt N s ((off + i) % s.num_buckets) = true) →
    (∀ i < j, dupB N s k v ((off + i) % s.num_buckets) = false) →
    occAt N s ((off + j) % s.num_buckets) = true →
    dupB N s k v ((off + j) % s.num_buckets) = true →
    removeLoop N s (hdrOf s) k v off rem
      = (true, applyRem N s (hdrOf s) ((off + j) % s.num_buckets))
  | 0, _, j, _, hj, _, _, _, _ => absurd hj (Nat.not_lt_zero j)
  | rem + 1, off, 0, hoff, _, _, _, hocc0, hdupj => by
    have hoffm : (off + 0) % s.num_buckets = off := by
      rw [Nat.add_zero, Nat.mod_eq_of_lt hoff]
    rw [hoffm] at hocc0 hdupj
    rw [removeLoop_step, hoffm]
    simp [hocc0, hdupj]
  | rem + 1, off, j + 1, hoff, hj, hocc, hdup, hocc0, hdupj => by
    have h0 : occAt N s off = true := by
      have h := hocc 0 (Nat.succ_pos j)
      rwa [Nat.add_zero, Nat.mod_eq_of_lt hoff] at h
    have hd0 : dupB N s k v off = false := by
      have h := hdup 0 (Nat.succ_pos j)
      rwa [Nat.add_zero, Nat.mod_eq_of_lt hoff] at h
    have hnb : 0 < s.num_buckets := Nat.lt_of_le_of_lt (Nat.zero_le off) hoff
    have hrec := removeLoop_found N s k v rem ((off + 1) % s.num_buckets) j
      (Nat.mod_lt _ hnb) (Nat.lt_of_succ_lt_succ hj)
      (by
        intro i hi
        have h := hocc (i + 1) (Nat.succ_lt_succ hi)
        rw [Nat.mod_add_mod, Nat.add_right_comm]
        rwa [← Nat.add_assoc] at h)
      (by
        intro i hi
        have h := hdup (i + 1) (Nat.succ_lt_succ hi)
        rw [Nat.mod_add_mod, Nat.add_right_comm]
        rwa [← Nat.add_assoc] at h)
      (by
        rw [Nat.mod_add_mod, Nat.add_right_comm]
        rwa [← Nat.add_assoc] at hocc0)
      (by
        rw [Nat.mod_add_mod, Nat.add_right_comm]
        rwa [← Nat.add_assoc] at hdupj)
    rw [removeLoop_step]
    simp only [h0, Bool.not_true, if_false, hd0, Bool.false_eq_true]
    rw [hrec, Nat.mod_add_mod, Nat.add_right_comm, ← Nat.add_assoc]

/-! ## Effects of the insert / remove success branches -/

theorem div_lt_numBlocks (N : Nat) (s : LinearProbeHashTable) (hN : 0 < N)
    (hwf : WFidx N s) (off : Nat) (hoff : off < s.num_buckets) :
    off / N < (hdrOf s).NumBlocks := by
  obtain ⟨-, hnb, -⟩ := hwf
  exact (Nat.div_lt_iff_lt_mul hN).2 (Nat.lt_of_lt_of_le hoff hnb)

theorem bucketPid_mem (N : Nat) (s : LinearProbeHashTable) (hN : 0 < N)
    (hwf : WFidx N s) (off : Nat) (hoff : off < s.num_buckets) :
    (hdrOf s).GetBlockPageId (off / N) ∈ (hdrOf s).block_page_ids := by
  have hlt := div_lt_numBlocks N s hN hwf off hoff
  unfold HashTableHeaderPage.GetBlockPageId
  rw [List.getD_eq_getElem?_getD, List.getElem?_eq_getElem hlt, Option.getD_some]
  exact List.getElem_mem hlt

theorem bucketPid_ne_header (N : Nat) (s : LinearProbeHashTable) (hN : 0 < N)
    (hwf : WFidx N s) (off : Nat) (hoff : off < s.num_buckets) :
    (hdrOf s).GetBlockPageId (off / N) ≠ s.header_page_id := by
  intro hc
  exact hwf.2.2.2.2.2.2.1 (hc ▸ bucketPid_mem N s hN hwf off hoff)

/-- Computing a block fetch after `applyIns`: only the claimed bucket's block
page changed (the header write cannot be seen at a non-header page id). -/
theorem fetchBlock_applyIns (N : Nat) (s : LinearProbeHashTable) (off k v : Nat)
    (pid2 : Nat) (hph : pid2 ≠ s.header_page_id) :
    fetchBlock (applyIns N s (hdrOf s) off k v).store pid2 =
      if pid2 = (hdrOf s).GetBlockPageId (off / N)
      then ((fetchBlock s.store ((hdrOf s).GetBlockPageId (off / N))).Insert
        (off % N) k v).2
      else fetchBlock s.store pid2 := by
  simp only [applyIns, PageStore.writePage, fetchBlock]
  rw [if_neg hph]
  by_cases hpp : pid2 = (hdrOf s).GetBlockPageId (off / N)
  · rw [if_pos hpp, if_pos hpp]
  · rw [if_neg hpp, if_neg hpp]

theorem hdrOf_applyIns (N : Nat) (s : LinearProbeHashTable) (off k v : Nat) :
    hdrOf (applyIns N s (hdrOf s) off k v) = (hdrOf s).SetSize (s.size + 1) := by
  simp [applyIns, hdrOf, fetchHeader, PageStore.writePage]

theorem applyIns_fields (N : Nat) (s : LinearProbeHashTable) (off k v : Nat) :
    (applyIns N s (hdrOf s) off k v).num_buckets = s.num_buckets
      ∧ (applyIns N s (hdrOf s) off k v).header_page_id = s.header_page_id
      ∧ (applyIns N s (hdrOf s) off k v).size = s.size + 1
      ∧ (applyIns N s (hdrOf s) off k v).store.next_pid = s.store.next_pid :=
  ⟨rfl, rfl, rfl, rfl⟩

/-- After `applyIns`, the block page of any bucket is the updated block when
the bucket lies in the claimed bucket's block, and is untouched otherwise. -/
theorem applyIns_bucketBlock (N : Nat) (s : LinearProbeHashTable) (off k v : Nat)
    (hN : 0 < N) (hwf : WFidx N s) (hoff : off < s.num_buckets)
    (off2 : Nat) (hoff2 : off2 < s.num_buckets) :
    bucketBlock N (applyIns N s (hdrOf s) off k v) off2 =
      if off2 / N = off / N
      then ((bucketBlock N s off2).Insert (off % N) k v).2
      else bucketBlock N s off2 := by
  have hids : ((hdrOf s).SetSize (s.size + 1)).block_page_ids
      = (hdrOf s).block_page_ids := rfl
  have hpid2ne : (hdrOf s).GetBlockPageId (off2 / N) ≠ s.header_page_id :=
    bucketPid_ne_header N s hN hwf off2 hoff2
  unfold bucketBlock
  rw [hdrOf_applyIns]
  show fetchBlock (applyIns N s (hdrOf s) off k v).store
      (((hdrOf s).SetSize (s.size + 1)).GetBlockPageId (off2 / N)) = _
  have hgbp : ((hdrOf s).SetSize (s.size + 1)).GetBlockPageId (off2 / N)
      = (hdrOf s).GetBlockPageId (off2 / N) := rfl
  rw [hgbp, fetchBlock_applyIns N s off k v _ hpid2ne]
  by_cases hj : off2 / N = off / N
  · rw [if_pos (by rw [hj]), if_pos hj]
    rw [hj]
  · rw [if_neg ?hne, if_neg hj]
    case hne =>
      unfold HashTableHeaderPage.GetBlockPageId
      exact nodup_getD_ne _ hwf.2.2.2.2.2.1 _ _
        (div_lt_numBlocks N s hN hwf off2 hoff2)
        (div_lt_numBlocks N s hN hwf off hoff) hj 0

theorem off_eq_iff_div_mod (N off off2 : Nat) :
    off2 = off ↔ (off2 / N = off / N ∧ off2 % N = off % N) := by
  constructor
  · intro h
    exact ⟨by rw [h], by rw [h]⟩
  · intro ⟨h1, h2⟩
    have e1 := Nat.div_add_mod off2 N
    have e2 := Nat.div_add_mod off N
    rw [h1, h2] at e1
    omega

theorem blockSized_bucket (N : Nat) (s : LinearProbeHashTable) (hN : 0 < N)
    (hwf : WFidx N s) (off : Nat) (hoff : off < s.num_buckets) :
    blockSized N (bucketBlock N s off) :=
  hwf.2.2.2.1 (off / N) (div_lt_numBlocks N s hN hwf off hoff)

/-- The four bucket accessors after `applyIns`: the claimed bucket reads as
live `(k, v)`, every other bucket is untouched. -/
theorem applyIns_accessors (N : Nat) (s : LinearProbeHashTable) (off k v : Nat)
    (hN : 0 < N) (hwf : WFidx N s) (hoff : off < s.num_buckets)
    (hocc : occAt N s off = false) (off2 : Nat) (hoff2 : off2 < s.num_buckets) :
    (occAt N (applyIns N s (hdrOf s) off k v) off2
        = if off2 = off then true else occAt N s off2)
      ∧ (readAt N (applyIns N s (hdrOf s) off k v) off2
        = if off2 = off then true else readAt N s off2)
      ∧ (keyAt N (applyIns N s (hdrOf s) off k v) off2
        = if off2 = off then k else keyAt N s off2)
      ∧ (valAt N (applyIns N s (hdrOf s) off k v) off2
        = if off2 = off then v else valAt N s off2) := by
  have hbb := applyIns_bucketBlock N s off k v hN hwf hoff off2 hoff2
  obtain ⟨hlo, hlr, hla⟩ := blockSized_bucket N s hN hwf off hoff
  have hindN : off % N < N := Nat.mod_lt _ hN
  have hlo2 : off % N < (bucketBlock N s off).occupied.length := by
    rw [hlo]; exact hindN
  have hlr2 : off % N < (bucketBlock N s off).readable.length := by
    rw [hlr]; exact hindN
  have hla2 : off % N < (bucketBlock N s off).array.length := by
    rw [hla]; exact hindN
  unfold occAt readAt keyAt valAt
  rw [hbb]
  unfold occAt at hocc
  by_cases hj : off2 / N = off / N
  · have hB : bucketBlock N s off2 = bucketBlock N s off := by
      unfold bucketBlock
      rw [hj]
    rw [if_pos hj, hB]
    unfold HashTableBlockPage.Insert
    rw [if_neg (by simp [hocc])]
    by_cases hi : off2 % N = off % N
    · have heq : off2 = off := (off_eq_iff_div_mod N off off2).2 ⟨hj, hi⟩
      refine ⟨?_, ?_, ?_, ?_⟩
      · rw [if_pos heq]
        unfold HashTableBlockPage.IsOccupied
        rw [hi]
        exact getD_set_self _ _ _ _ hlo2
      · rw [if_pos heq]
        unfold HashTableBlockPage.IsReadable
        rw [hi]
        exact getD_set_self _ _ _ _ hlr2
      · rw [if_pos heq]
        unfold HashTableBlockPage.KeyAt
        rw [hi, getD_set_self _ _ _ _ hla2]
      · rw [if_pos heq]
        unfold HashTableBlockPage.ValueAt
        rw [hi, getD_set_self _ _ _ _ hla2]
    · have hne : off2 ≠ off := fun hc =>
        hi (((off_eq_iff_div_mod N off off2).1 hc).2)
      refine ⟨?_, ?_, ?_, ?_⟩
      · rw [if_neg hne]
        unfold HashTableBlockPage.IsOccupied
        rw [getD_set_ne _ _ _ _ _ hi]
      · rw [if_neg hne]
        unfold HashTableBlockPage.IsReadable
        rw [getD_set_ne _ _ _ _ _ hi]
      · rw [if_neg hne]
        unfold HashTableBlockPage.KeyAt
        rw [getD_set_ne _ _ _ _ _ hi]
      · rw [if_neg hne]
        unfold HashTableBlockPage.ValueAt
        rw [getD_set_ne _ _ _ _ _ hi]
  · have hne : off2 ≠ off := fun hc =>
      hj (((off_eq_iff_div_mod N off off2).1 hc).1)
    rw [if_neg hj, if_neg hne, if_neg hne, if_neg hne, if_neg hne]
    exact ⟨rfl, rfl, rfl, rfl⟩

theorem GetBlockPageId_SetSize (h : HashTableHeaderPage) (n i : Nat) :
    (h.SetSize n).GetBlockPageId i = h.GetBlockPageId i := rfl

theorem block_page_ids_SetSize (h : HashTableHeaderPage) (n : Nat) :
    (h.SetSize n).block_page_ids = h.block_page_ids := rfl

theorem fetchBlock_applyRem (N : Nat) (s : LinearProbeHashTable) (off : Nat)
    (pid2 : Nat) (hph : pid2 ≠ s.header_page_id) :
    fetchBlock (applyRem N s (hdrOf s) off).store pid2 =
      if pid2 = (hdrOf s).GetBlockPageId (off / N)
      then (fetchBlock s.store ((hdrOf s).GetBlockPageId (off / N))).Remove (off % N)
      else fetchBlock s.store pid2 := by
  simp only [applyRem, PageStore.writePage, fetchBlock]
  rw [if_neg hph]
  by_cases hpp : pid2 = (hdrOf s).GetBlockPageId (off / N)
  · rw [if_pos hpp, if_pos hpp]
  · rw [if_neg hpp, if_neg hpp]

theorem hdrOf_applyRem (N : Nat) (s : LinearProbeHashTable) (off : Nat) :
    hdrOf (applyRem N s (hdrOf s) off) = (hdrOf s).SetSize (sizeTPred s.size) := by
  simp [applyRem, hdrOf, fetchHeader, PageStore.writePage]

theorem applyRem_fields (N : Nat) (s : LinearProbeHashTable) (off : Nat) :
    (applyRem N s (hdrOf s) off).num_buckets = s.num_buckets
      ∧ (applyRem N s (hdrOf s) off).header_page_id = s.header_page_id
      ∧ (applyRem N s (hdrOf s) off).size = sizeTPred s.size
      ∧ (applyRem N s (hdrOf s) off).store.next_pid = s.store.next_pid :=
  ⟨rfl, rfl, rfl, rfl⟩

theorem applyRem_bucketBlock (N : Nat) (s : LinearProbeHashTable) (off : Nat)
    (hN : 0 < N) (hwf : WFidx N s) (hoff : off < s.num_buckets)
    (off2 : Nat) (hoff2 : off2 < s.num_buckets) :
    bucketBlock N (applyRem N s (hdrOf s) off) off2 =
      if off2 / N = off / N
      then (bucketBlock N s off2).Remove (off % N)
      else bucketBlock N s off2 := by
  have hpid2ne : (hdrOf s).GetBlockPageId (off2 / N) ≠ s.header_page_id :=
    bucketPid_ne_header N s hN hwf off2 hoff2
  unfold bucketBlock
  rw [hdrOf_applyRem]
  rw [GetBlockPageId_SetSize, fetchBlock_applyRem N s off _ hpid2ne]
  by_cases hj : off2 / N = off / N
  · rw [if_pos (by rw [hj]), if_pos hj]
    rw [hj]
  · rw [if_neg ?hne, if_neg hj]
    case hne =>
      unfold HashTableHeaderPage.GetBlockPageId
      exact nodup_getD_ne _ hwf.2.2.2.2.2.1 _ _
        (div_lt_numBlocks N s hN hwf off2 hoff2)
        (div_lt_numBlocks N s hN hwf off hoff) hj 0

/-- The four bucket accessors after `applyRem`: only the readable bit of the
removed bucket changes (to false); occupied bits and slot contents are
untouched everywhere. -/
theorem applyRem_accessors (N : Nat) (s : LinearProbeHashTable) (off : Nat)
    (hN : 0 < N) (hwf : WFidx N s) (hoff : off < s.num_buckets)
    (off2 : Nat) (hoff2 : off2 < s.num_buckets) :
    (occAt N (applyRem N s (hdrOf s) off) off2 = occAt N s off2)
      ∧ (readAt N (applyRem N s (hdrOf s) off) off2
        = if off2 = off then false else readAt N s off2)
      ∧ (keyAt N (applyRem N s (hdrOf s) off) off2 = keyAt N s off2)
      ∧ (valAt N (applyRem N s (hdrOf s) off) off2 = valAt N s off2) := by
  have hbb := applyRem_bucketBlock N s off hN hwf hoff off2 hoff2
  obtain ⟨hlo, hlr, hla⟩ := blockSized_bucket N s hN hwf off hoff
  have hindN : off % N < N := Nat.mod_lt _ hN
  have hlr2 : off % N < (bucketBlock N s off).readable.length := by
    rw [hlr]; exact hindN
  unfold occAt readAt keyAt valAt
  rw [hbb]
  by_cases hj : off2 / N = off / N
  · have hB : bucketBlock N s off2 = bucketBlock N s off := by
      unfold bucketBlock
      rw [hj]
    rw [if_pos hj, hB]
    unfold HashTableBlockPage.Remove
    by_cases hi : off2 % N = off % N
    · have heq : off2 = off := (off_eq_iff_div_mod N off off2).2 ⟨hj, hi⟩
      refine ⟨rfl, ?_, rfl, rfl⟩
      rw [if_pos heq]
      unfold HashTableBlockPage.IsReadable
      rw [hi]
      exact getD_set_self _ _ _ _ hlr2
    · have hne : off2 ≠ off := fun hc =>
        hi (((off_eq_iff_div_mod N off off2).1 hc).2)
      refine ⟨rfl, ?_, rfl, rfl⟩
      rw [if_neg hne]
      unfold HashTableBlockPage.IsReadable
      rw [getD_set_ne _ _ _ _ _ hi]
  · have hne : off2 ≠ off := fun hc =>
      hj (((off_eq_iff_div_mod N off off2).1 hc).1)
    rw [if_neg hj, if_neg hne]
    exact ⟨rfl, rfl, rfl, rfl⟩

theorem blockSized_insert (N : Nat) (b : HashTableBlockPage) (ind k v : Nat)
    (hsz : blockSized N b) : blockSized N ((b.Insert ind k v).2) := by
  obtain ⟨h1, h2, h3⟩ := hsz
  unfold HashTableBlockPage.Insert
  by_cases h : b.IsOccupied ind = true
  · simp [h, blockSized, h1, h2, h3]
  · simp only [Bool.not_eq_true] at h
    simp [h, blockSized, List.length_set, h1, h2, h3]

theorem insert_preserves_RO (N : Nat) (b : HashTableBlockPage) (ind k v : Nat)
    (hsz : blockSized N b) (hind : ind < N)
    (hro : ∀ ind2 < N, b.IsReadable ind2 = true → b.IsOccupied ind2 = true) :
    ∀ ind2 < N, (b.Insert ind k v).2.IsReadable ind2 = true →
      (b.Insert ind k v).2.IsOccupied ind2 = true := by
  obtain ⟨h1, h2, h3⟩ := hsz
  unfold HashTableBlockPage.Insert
  by_cases h : b.IsOccupied ind = true
  · simp only [h, if_true]
    exact hro
  · simp only [Bool.not_eq_true] at h
    simp only [h, Bool.false_eq_true, if_false]
    intro ind2 hind2
    unfold HashTableBlockPage.IsReadable HashTableBlockPage.IsOccupied
    by_cases hi : ind2 = ind
    · subst hi
      intro _
      exact getD_set_self _ _ _ _ (h1 ▸ hind2)
    · rw [getD_set_ne _ _ _ _ _ hi, getD_set_ne _ _ _ _ _ hi]
      exact hro ind2 hind2

theorem remove_preserves_RO (N : Nat) (b : HashTableBlockPage) (ind : Nat)
    (hro : ∀ ind2 < N, b.IsReadable ind2 = true → b.IsOccupied ind2 = true) :
    ∀ ind2 < N, (b.Remove ind).IsReadable ind2 = true →
      (b.Remove ind).IsOccupied ind2 = true := by
  unfold HashTableBlockPage.Remove
  intro ind2 hind2
  unfold HashTableBlockPage.IsReadable HashTableBlockPage.IsOccupied
  by_cases hi : ind2 = ind
  · subst hi
    by_cases hlt : ind2 < b.readable.length
    · rw [getD_set_self _ _ _ _ hlt]
      intro hc
      exact absurd hc (Bool.false_ne_true)
    · rw [List.set_eq_of_length_le (Nat.le_of_not_lt hlt)]
      exact hro ind2 hind2
  · rw [getD_set_ne _ _ _ _ _ hi]
    exact hro ind2 hind2

theorem getBlockPageId_mem (hdr : HashTableHeaderPage) (i : Nat)
    (hi : i < hdr.NumBlocks) : hdr.GetBlockPageId i ∈ hdr.block_page_ids := by
  unfold HashTableHeaderPage.GetBlockPageId
  rw [List.getD_eq_getElem?_getD, List.getElem?_eq_getElem hi, Option.getD_some]
  exact List.getElem_mem hi

theorem applyIns_WF (N : Nat) (s : LinearProbeHashTable) (off k v : Nat)
    (hN : 0 < N) (hwf : WFidx N s) (hoff : off < s.num_buckets)
    (hocc : occAt N s off = false) :
    WFidx N (applyIns N s (hdrOf s) off k v) := by
  have hids : (hdrOf (applyIns N s (hdrOf s) off k v)).block_page_ids
      = (hdrOf s).block_page_ids := by
    rw [hdrOf_applyIns, block_page_ids_SetSize]
  have hnbk : (hdrOf (applyIns N s (hdrOf s) off k v)).NumBlocks
      = (hdrOf s).NumBlocks := by
    unfold HashTableHeaderPage.NumBlocks
    rw [hids]
  have hgb : ∀ i, (hdrOf (applyIns N s (hdrOf s) off k v)).GetBlockPageId i
      = (hdrOf s).GetBlockPageId i := by
    intro i
    unfold HashTableHeaderPage.GetBlockPageId
    rw [hids]
  have hdivlt := div_lt_numBlocks N s hN hwf off hoff
  have hbsz := blockSized_bucket N s hN hwf off hoff
  refine ⟨?_, ?_, ?_, ?_, ?_, ?_, ?_, ?_, ?_⟩
  · show isHeaderB (applyIns N s (hdrOf s) off k v).store s.header_page_id = true
    simp [applyIns, PageStore.writePage, isHeaderB]
  · show s.num_buckets ≤ _ * N
    rw [hnbk]
    exact hwf.2.1
  · intro i hi
    rw [hnbk] at hi
    rw [hgb]
    have hne : (hdrOf s).GetBlockPageId i ≠ s.header_page_id := by
      intro hc
      exact hwf.2.2.2.2.2.2.1 (hc ▸ getBlockPageId_mem _ i hi)
    show isBlockB (applyIns N s (hdrOf s) off k v).store _ = true
    by_cases hp : (hdrOf s).GetBlockPageId i = (hdrOf s).GetBlockPageId (off / N)
    · rw [hp] at hne ⊢
      simp [applyIns, PageStore.writePage, isBlockB, hne]
    · simp only [applyIns, PageStore.writePage, isBlockB]
      rw [if_neg hne, if_neg hp]
      exact hwf.2.2.1 i hi
  · intro i hi
    rw [hnbk] at hi
    rw [hgb]
    have hne : (hdrOf s).GetBlockPageId i ≠ s.header_page_id := by
      intro hc
      exact hwf.2.2.2.2.2.2.1 (hc ▸ getBlockPageId_mem _ i hi)
    rw [fetchBlock_applyIns N s off k v _ hne]
    by_cases hp : (hdrOf s).GetBlockPageId i = (hdrOf s).GetBlockPageId (off / N)
    · rw [if_pos hp]
      exact blockSized_insert N _ _ k v hbsz
    · rw [if_neg hp]
      exact hwf.2.2.2.1 i hi
  · intro i hi
    rw [hnbk] at hi
    rw [hgb]
    have hne : (hdrOf s).GetBlockPageId i ≠ s.header_page_id := by
      intro hc
      exact hwf.2.2.2.2.2.2.1 (hc ▸ getBlockPageId_mem _ i hi)
    rw [fetchBlock_applyIns N s off k v _ hne]
    by_cases hp : (hdrOf s).GetBlockPageId i = (hdrOf s).GetBlockPageId (off / N)
    · rw [if_pos hp]
      exact insert_preserves_RO N _ _ k v hbsz (Nat.mod_lt _ hN)
        (hwf.2.2.2.2.1 (off / N) hdivlt)
    · rw [if_neg hp]
      exact hwf.2.2.2.2.1 i hi
  · rw [hids]
    exact hwf.2.2.2.2.2.1
  · show s.header_page_id ∉ _
    rw [hids]
    exact hwf.2.2.2.2.2.2.1
  · show s.header_page_id < s.store.next_pid
    exact hwf.2.2.2.2.2.2.2.1
  · intro i hi
    rw [hnbk] at hi
    rw [hgb]
    show _ < s.store.next_pid
    exact hwf.2.2.2.2.2.2.2.2 i hi

theorem applyRem_WF (N : Nat) (s : LinearProbeHashTable) (off : Nat)
    (hN : 0 < N) (hwf : WFidx N s) (hoff : off < s.num_buckets) :
    WFidx N (applyRem N s (hdrOf s) off) := by
  have hids : (hdrOf (applyRem N s (hdrOf s) off)).block_page_ids
      = (hdrOf s).block_page_ids := by
    rw [hdrOf_applyRem, block_page_ids_SetSize]
  have hnbk : (hdrOf (applyRem N s (hdrOf s) off)).NumBlocks
      = (hdrOf s).NumBlocks := by
    unfold HashTableHeaderPage.NumBlocks
    rw [hids]
  have hgb : ∀ i, (hdrOf (applyRem N s (hdrOf s) off)).GetBlockPageId i
      = (hdrOf s).GetBlockPageId i := by
    intro i
    unfold HashTableHeaderPage.GetBlockPageId
    rw [hids]
  refine ⟨?_, ?_, ?_, ?_, ?_, ?_, ?_, ?_, ?_⟩
  · show isHeaderB (applyRem N s (hdrOf s) off).store s.header_page_id = true
    simp [applyRem, PageStore.writePage, isHeaderB]
  · show s.num_buckets ≤ _ * N
    rw [hnbk]
    exact hwf.2.1
  · intro i hi
    rw [hnbk] at hi
    rw [hgb]
    have hne : (hdrOf s).GetBlockPageId i ≠ s.header_page_id := by
      intro hc
      exact hwf.2.2.2.2.2.2.1 (hc ▸ getBlockPageId_mem _ i hi)
    show isBlockB (applyRem N s (hdrOf s) off).store _ = true
    by_cases hp : (hdrOf s).GetBlockPageId i = (hdrOf s).GetBlockPageId (off / N)
    · rw [hp] at hne ⊢
      simp [applyRem, PageStore.writePage, isBlockB, hne]
    · simp only [applyRem, PageStore.writePage, isBlockB]
      rw [if_neg hne, if_neg hp]
      exact hwf.2.2.1 i hi
  · intro i hi
    rw [hnbk] at hi
    rw [hgb]
    have hne : (hdrOf s).GetBlockPageId i ≠ s.header_page_id := by
      intro hc
      exact hwf.2.2.2.2.2.2.1 (hc ▸ getBlockPageId_mem _ i hi)
    rw [fetchBlock_applyRem N s off _ hne]
    by_cases hp : (hdrOf s).GetBlockPageId i = (hdrOf s).GetBlockPageId (off / N)
    · rw [if_pos hp]
      obtain ⟨h1, h2, h3⟩ := hwf.2.2.2.1 i hi
      rw [hp] at h1 h2 h3
      exact ⟨h1, by simpa [HashTableBlockPage.Remove] using h2, h3⟩
    · rw [if_neg hp]
      exact hwf.2.2.2.1 i hi
  · intro i hi
    rw [hnbk] at hi
    rw [hgb]
    have hne : (hdrOf s).GetBlockPageId i ≠ s.header_page_id := by
      intro hc
      exact hwf.2.2.2.2.2.2.1 (hc ▸ getBlockPageId_mem _ i hi)
    rw [fetchBlock_applyRem N s off _ hne]
    by_cases hp : (hdrOf s).GetBlockPageId i = (hdrOf s).GetBlockPageId (off / N)
    · rw [if_pos hp]
      exact remove_preserves_RO N _ _ (by rw [← hp]; exact hwf.2.2.2.2.1 i hi)
    · rw [if_neg hp]
      exact hwf.2.2.2.2.1 i hi
  · rw [hids]
    exact hwf.2.2.2.2.2.1
  · show s.header_page_id ∉ _
    rw [hids]
    exact hwf.2.2.2.2.2.2.1
  · show s.header_page_id < s.store.next_pid
    exact hwf.2.2.2.2.2.2.2.1
  · intro i hi
    rw [hnbk] at hi
    rw [hgb]
    show _ < s.store.next_pid
    exact hwf.2.2.2.2.2.2.2.2 i hi

/-! ## Claim C6 -/

theorem dupB_congr (N : Nat) (s1 s2 : LinearProbeHashTable) (k v off : Nat)
    (hr : readAt N s1 off = readAt N s2 off) (hk : keyAt N s1 off = keyAt N s2 off)
    (hv : valAt N s1 off = valAt N s2 off) :
    dupB N s1 k v off = dupB N s2 k v off := by
  unfold dupB
  rw [hr, hk, hv]

/-- Claim C6: from a well-formed table not at its resize threshold (neither
before nor after the first insertion), if `insert(k, v)` succeeds yielding
`s1`, then a second `insert(k, v)` returns `false` and leaves the state —
and hence `size()` — unchanged: the exact duplicate is detected and never
stored. -/
theorem insert_twice_second_false (N : Nat) (hashFn : Nat → Nat)
    (s : LinearProbeHashTable) (hN : 0 < N) (hwf : WFidx N s)
    (hnz : s.size ≠ s.num_buckets) (hnz2 : s.size + 1 ≠ s.num_buckets)
    (k v fuel1 fuel2 : Nat) (s1 : LinearProbeHashTable)
    (hins : LinearProbeHashTable.Insert N hashFn (fuel1 + 1) s k v = (true, s1)) :
    LinearProbeHashTable.Insert N hashFn (fuel2 + 1) s1 k v = (false, s1)
      ∧ s1.GetSize = s.GetSize + 1 := by
  simp only [LinearProbeHashTable.Insert, if_neg hnz] at hins
  by_cases hnb0 : s.num_buckets = 0
  · rw [hnb0] at hins
    exact absurd (congrArg Prod.fst hins) (by simp [insertLoop])
  · have hnb : 0 < s.num_buckets := Nat.pos_of_ne_zero hnb0
    have hb0 : hashFn k % s.num_buckets < s.num_buckets := Nat.mod_lt _ hnb
    obtain ⟨j, hj, hfree, hpre, hnod, hs1⟩ :=
      insertLoop_inv N s k v s.num_buckets (hashFn k % s.num_buckets) s1 hb0 hins
    have hplt : (hashFn k % s.num_buckets + j) % s.num_buckets < s.num_buckets :=
      Nat.mod_lt _ hnb
    have hacc := fun off2 hoff2 => applyIns_accessors N s
      ((hashFn k % s.num_buckets + j) % s.num_buckets) k v hN hwf hplt hfree off2 hoff2
    have hposne : ∀ i < j, (hashFn k % s.num_buckets + i) % s.num_buckets
        ≠ (hashFn k % s.num_buckets + j) % s.num_buckets := by
      intro i hi hc
      exact absurd (add_mod_inj _ _ _ _ (Nat.lt_trans hi hj) hj hc) (Nat.ne_of_lt hi)
    have hfields := applyIns_fields N s
      ((hashFn k % s.num_buckets + j) % s.num_buckets) k v
    have hnb1 : s1.num_buckets = s.num_buckets := by rw [hs1]; exact hfields.1
    have hsz1 : s1.size = s.size + 1 := by rw [hs1]; exact hfields.2.2.1
    have hsecond : insertLoop N s1 (hdrOf s1) k v (hashFn k % s1.num_buckets)
        s1.num_buckets = (false, s1) := by
      rw [hnb1]
      refine insertLoop_dup_exit N s1 k v s.num_buckets (hashFn k % s.num_buckets) j
        (by rw [hnb1]; exact hb0) hj ?_ ?_ ?_
      · intro i hi
        rw [hnb1]
        have hilt : (hashFn k % s.num_buckets + i) % s.num_buckets < s.num_buckets :=
          Nat.mod_lt _ hnb
        have ha := hacc _ hilt
        rw [hs1, ha.1, if_neg (hposne i hi)]
        exact hpre i hi
      · intro i hi
        rw [hnb1]
        have hilt : (hashFn k % s.num_buckets + i) % s.num_buckets < s.num_buckets :=
          Nat.mod_lt _ hnb
        have ha := hacc _ hilt
        rw [hs1]
        rw [dupB_congr N (applyIns N s (hdrOf s)
            ((hashFn k % s.num_buckets + j) % s.num_buckets) k v) s k v _
          (by rw [ha.2.1, if_neg (hposne i hi)])
          (by rw [ha.2.2.1, if_neg (hposne i hi)])
          (by rw [ha.2.2.2, if_neg (hposne i hi)])]
        exact hnod i (Nat.le_of_lt hi)
      · rw [hnb1]
        have ha := hacc _ hplt
        rw [hs1]
        unfold dupB
        rw [ha.2.1, ha.2.2.1, ha.2.2.2, if_pos rfl, if_pos rfl, if_pos rfl]
        simp
    have hnzz : ¬ (s1.size = s1.num_buckets) := by
      rw [hsz1, hnb1]
      exact hnz2
    refine ⟨?_, ?_⟩
    · simp only [LinearProbeHashTable.Insert, if_neg hnzz]
      exact hsecond
    · exact hsz1

theorem insert_twice_second_false_witness :
    let s := mkLinearProbeHashTable 4 3
    let r1 := LinearProbeHashTable.Insert 4 (fun x => x) 1 s 1 7
    (LinearProbeHashTable.Insert 4 (fun x => x) 1 r1.2 1 7 = (false, r1.2)
      ∧ r1.2.GetSize = s.GetSize + 1) := by
  intro s r1
  have h1 : r1.1 = true := by decide
  refine insert_twice_second_false 4 (fun x => x) s (by decide) (by decide)
    (by decide) (by decide) 1 7 0 0 r1.2 ?_
  rw [← h1]

/-! ## Live-pair membership bridges -/

theorem mem_blockLiveAux (b : HashTableBlockPage) (ind : Nat) :
    ∀ (rem ind0 : Nat), ind0 ≤ ind → ind < ind0 + rem → b.IsReadable ind = true →
    (b.KeyAt ind, b.ValueAt ind) ∈ blockLiveAux b ind0 rem
  | 0, ind0, h1, h2, _ => absurd h2 (by omega)
  | rem + 1, ind0, h1, h2, hr => by
    unfold blockLiveAux
    by_cases hcase : ind0 = ind
    · subst hcase
      rw [hr]
      exact List.mem_append_left _ (List.mem_singleton.2 rfl)
    · have h1' : ind0 + 1 ≤ ind := Nat.lt_of_le_of_ne h1 hcase
      exact List.mem_append_right _
        (mem_blockLiveAux b ind rem (ind0 + 1) h1' (by omega) hr)

theorem mem_liveBlocksAux (N : Nat) (ps : PageStore) (hdr : HashTableHeaderPage)
    (x : Nat × Nat) (t : Nat) :
    ∀ (rem i : Nat), i ≤ t → t < i + rem →
    x ∈ blockLiveAux (fetchBlock ps (hdr.GetBlockPageId t)) 0 N →
    x ∈ liveBlocksAux N ps hdr i rem
  | 0, i, h1, h2, _ => absurd h2 (by omega)
  | rem + 1, i, h1, h2, hx => by
    unfold liveBlocksAux
    by_cases hcase : i = t
    · subst hcase
      exact List.mem_append_left _ hx
    · have h1' : i + 1 ≤ t := Nat.lt_of_le_of_ne h1 hcase
      exact List.mem_append_right _
        (mem_liveBlocksAux N ps hdr x t rem (i + 1) h1' (by omega) hx)

theorem dup_mem_liveList (N : Nat) (s : LinearProbeHashTable) (k v off : Nat)
    (hN : 0 < N) (hwf : WFidx N s) (hoff : off < s.num_buckets)
    (hdup : dupB N s k v off = true) : (k, v) ∈ liveList N s := by
  unfold dupB at hdup
  simp only [Bool.and_eq_true, beq_iff_eq] at hdup
  obtain ⟨⟨hr, hk⟩, hv⟩ := hdup
  rw [← hk, ← hv]
  unfold liveList
  refine mem_liveBlocksAux N s.store (hdrOf s) _ (off / N) (hdrOf s).NumBlocks 0
    (Nat.zero_le _) (by simpa using div_lt_numBlocks N s hN hwf off hoff) ?_
  exact mem_blockLiveAux _ (off % N) N 0 (Nat.zero_le _)
    (by simpa using Nat.mod_lt off hN) hr

/-- Contrapositive form: if `(k, v)` is not live anywhere, no bucket tests as
an exact duplicate. -/
theorem not_live_no_dup (N : Nat) (s : LinearProbeHashTable) (k v : Nat)
    (hN : 0 < N) (hwf : WFidx N s) (hnotin : (k, v) ∉ liveList N s) :
    ∀ off < s.num_buckets, dupB N s k v off = false := by
  intro off hoff
  by_cases hd : dupB N s k v off = true
  · exact absurd (dup_mem_liveList N s k v off hN hwf hoff hd) hnotin
  · simpa using hd

/-! ## Claim C5 -/

/-- Claim C5: from a well-formed table below its resize threshold in which
`(k, v)` is not yet live, if `insert(k, v)` succeeds then `get_value(k)`
finds `v`; and after the subsequent `remove(k, v)` (which succeeds),
`get_value(k)` no longer yields `v` — the tombstone left by the removal is
skipped as unreadable but does not terminate the probe. -/
theorem insert_get_remove_roundtrip (N : Nat) (hashFn : Nat → Nat)
    (s : LinearProbeHashTable) (hN : 0 < N) (hwf : WFidx N s)
    (hnz : s.size ≠ s.num_buckets) (k v fuel : Nat)
    (hnotin : (k, v) ∉ liveList N s) (s1 : LinearProbeHashTable)
    (hins : LinearProbeHashTable.Insert N hashFn (fuel + 1) s k v = (true, s1)) :
    v ∈ (LinearProbeHashTable.GetValue N hashFn s1 k).1
      ∧ (LinearProbeHashTable.Remove N hashFn s1 k v).1 = true
      ∧ v ∉ (LinearProbeHashTable.GetValue N hashFn
          (LinearProbeHashTable.Remove N hashFn s1 k v).2 k).1 := by
  simp only [LinearProbeHashTable.Insert, if_neg hnz] at hins
  by_cases hnb0 : s.num_buckets = 0
  · rw [hnb0] at hins
    exact absurd (congrArg Prod.fst hins) (by simp [insertLoop])
  have hnb : 0 < s.num_buckets := Nat.pos_of_ne_zero hnb0
  have hb0 : hashFn k % s.num_buckets < s.num_buckets := Nat.mod_lt _ hnb
  obtain ⟨j, hj, hfree, hpre, hnod, hs1⟩ :=
    insertLoop_inv N s k v s.num_buckets (hashFn k % s.num_buckets) s1 hb0 hins
  have hplt : (hashFn k % s.num_buckets + j) % s.num_buckets < s.num_buckets :=
    Nat.mod_lt _ hnb
  have hacc := fun off2 hoff2 => applyIns_accessors N s
    ((hashFn k % s.num_buckets + j) % s.num_buckets) k v hN hwf hplt hfree off2 hoff2
  have hposne : ∀ i < j, (hashFn k % s.num_buckets + i) % s.num_buckets
      ≠ (hashFn k % s.num_buckets + j) % s.num_buckets := by
    intro i hi hc
    exact absurd (add_mod_inj _ _ _ _ (Nat.lt_trans hi hj) hj hc) (Nat.ne_of_lt hi)
  have hfields := applyIns_fields N s
    ((hashFn k % s.num_buckets + j) % s.num_buckets) k v
  have hnb1 : s1.num_buckets = s.num_buckets := by rw [hs1]; exact hfields.1
  have hwf1 : WFidx N s1 := by
    rw [hs1]
    exact applyIns_WF N s _ k v hN hwf hplt hfree
  have hnodupall := not_live_no_dup N s k v hN hwf hnotin
  -- the occupied-prefix and at-slot facts, transported to s1
  have hpre1 : ∀ i < j, occAt N s1 ((hashFn k % s.num_buckets + i) % s.num_buckets)
      = true := by
    intro i hi
    have hilt : (hashFn k % s.num_buckets + i) % s.num_buckets < s.num_buckets :=
      Nat.mod_lt _ hnb
    rw [hs1, (hacc _ hilt).1, if_neg (hposne i hi)]
    exact hpre i hi
  have hoccp : occAt N s1 ((hashFn k % s.num_buckets + j) % s.num_buckets) = true := by
    rw [hs1, (hacc _ hplt).1, if_pos rfl]
  have hreadp : readAt N s1 ((hashFn k % s.num_buckets + j) % s.num_buckets) = true := by
    rw [hs1, (hacc _ hplt).2.1, if_pos rfl]
  have hkeyp : keyAt N s1 ((hashFn k % s.num_buckets + j) % s.num_buckets) = k := by
    rw [hs1, (hacc _ hplt).2.2.1, if_pos rfl]
  have hvalp : valAt N s1 ((hashFn k % s.num_buckets + j) % s.num_buckets) = v := by
    rw [hs1, (hacc _ hplt).2.2.2, if_pos rfl]
  have hdup1 : ∀ i < j, dupB N s1 k v ((hashFn k % s.num_buckets + i) % s.num_buckets)
      = false := by
    intro i hi
    have hilt : (hashFn k % s.num_buckets + i) % s.num_buckets < s.num_buckets :=
      Nat.mod_lt _ hnb
    have ha := hacc _ hilt
    rw [hs1]
    rw [dupB_congr N (applyIns N s (hdrOf s)
        ((hashFn k % s.num_buckets + j) % s.num_buckets) k v) s k v _
      (by rw [ha.2.1, if_neg (hposne i hi)])
      (by rw [ha.2.2.1, if_neg (hposne i hi)])
      (by rw [ha.2.2.2, if_neg (hposne i hi)])]
    exact hnod i (Nat.le_of_lt hi)
  have hdupp : dupB N s1 k v ((hashFn k % s.num_buckets + j) % s.num_buckets)
      = true := by
    unfold dupB
    rw [hreadp, hkeyp, hvalp]
    simp
  -- Part 1: get finds v
  have hget1 : v ∈ (LinearProbeHashTable.GetValue N hashFn s1 k).1 := by
    show v ∈ getValueLoop N s1 (hdrOf s1) k (hashFn k % s1.num_buckets) []
      s1.num_buckets
    rw [hnb1]
    exact getValueLoop_hit N s1 k v s.num_buckets (hashFn k % s.num_buckets) j []
      (by rw [hnb1]; exact hb0) hj
      (by intro i hi; rw [hnb1]; exact hpre1 i hi)
      (by rw [hnb1]; exact hoccp)
      (by rw [hnb1]; exact hreadp)
      (by rw [hnb1]; exact hkeyp)
      (by rw [hnb1]; exact hvalp)
  -- Part 2: remove finds and clears the inserted slot
  have hrm0 := removeLoop_found N s1 k v s.num_buckets (hashFn k % s.num_buckets) j
    (by rw [hnb1]; exact hb0) hj
    (by intro i hi; rw [hnb1]; exact hpre1 i hi)
    (by intro i hi; rw [hnb1]; exact hdup1 i hi)
    (by rw [hnb1]; exact hoccp)
    (by rw [hnb1]; exact hdupp)
  rw [hnb1] at hrm0
  have hrm : LinearProbeHashTable.Remove N hashFn s1 k v
      = (true, applyRem N s1 (hdrOf s1)
          ((hashFn k % s.num_buckets + j) % s.num_buckets)) := by
    show removeLoop N s1 (hdrOf s1) k v (hashFn k % s1.num_buckets) s1.num_buckets = _
    rw [hnb1]
    exact hrm0
  have hrmv : (LinearProbeHashTable.Remove N hashFn s1 k v).1 = true := by
    rw [hrm]
  -- Part 3: after remove, get does not find v
  have hracc := fun off2 hoff2 => applyRem_accessors N s1
    ((hashFn k % s.num_buckets + j) % s.num_buckets) hN hwf1
    (by rw [hnb1]; exact hplt) off2 hoff2
  have hrfields := applyRem_fields N s1
    ((hashFn k % s.num_buckets + j) % s.num_buckets)
  have hall2 : ∀ off < (applyRem N s1 (hdrOf s1)
      ((hashFn k % s.num_buckets + j) % s.num_buckets)).num_buckets,
      dupB N (applyRem N s1 (hdrOf s1)
        ((hashFn k % s.num_buckets + j) % s.num_buckets)) k v off = false := by
    intro off hoff
    rw [hrfields.1, hnb1] at hoff
    have hoff1 : off < s1.num_buckets := by rw [hnb1]; exact hoff
    have hra := hracc off hoff1
    by_cases hofp : off = (hashFn k % s.num_buckets + j) % s.num_buckets
    · unfold dupB
      rw [hra.2.1, if_pos hofp]
      simp
    · rw [dupB_congr N _ s1 k v off (by rw [hra.2.1, if_neg hofp]) hra.2.2.1 hra.2.2.2]
      have ha := hacc off hoff
      rw [hs1]
      rw [dupB_congr N (applyIns N s (hdrOf s)
          ((hashFn k % s.num_buckets + j) % s.num_buckets) k v) s k v off
        (by rw [ha.2.1, if_neg hofp])
        (by rw [ha.2.2.1, if_neg hofp])
        (by rw [ha.2.2.2, if_neg hofp])]
      exact hnodupall off hoff
  have hnbr : (applyRem N s1 (hdrOf s1)
      ((hashFn k % s.num_buckets + j) % s.num_buckets)).num_buckets
      = s.num_buckets := by
    rw [hrfields.1, hnb1]
  have hget2 : v ∉ (LinearProbeHashTable.GetValue N hashFn
      (LinearProbeHashTable.Remove N hashFn s1 k v).2 k).1 := by
    rw [hrm]
    show v ∉ getValueLoop N
      (applyRem N s1 (hdrOf s1) ((hashFn k % s.num_buckets + j) % s.num_buckets))
      (hdrOf (applyRem N s1 (hdrOf s1)
        ((hashFn k % s.num_buckets + j) % s.num_buckets))) k
      (hashFn k % (applyRem N s1 (hdrOf s1)
        ((hashFn k % s.num_buckets + j) % s.num_buckets)).num_buckets) []
      (applyRem N s1 (hdrOf s1)
        ((hashFn k % s.num_buckets + j) % s.num_buckets)).num_buckets
    refine getValueLoop_absent N _ k v hall2 _ _ [] ?_ (List.not_mem_nil v)
    rw [hnbr]
    exact Nat.mod_lt _ hnb
  exact ⟨hget1, hrmv, hget2⟩

theorem insert_get_remove_roundtrip_witness :
    let s := mkLinearProbeHashTable 4 3
    let r1 := LinearProbeHashTable.Insert 4 (fun x => x) 1 s 1 7
    (7 ∈ (LinearProbeHashTable.GetValue 4 (fun x => x) r1.2 1).1
      ∧ (LinearProbeHashTable.Remove 4 (fun x => x) r1.2 1 7).1 = true
      ∧ 7 ∉ (LinearProbeHashTable.GetValue 4 (fun x => x)
          (LinearProbeHashTable.Remove 4 (fun x => x) r1.2 1 7).2 1).1) := by
  intro s r1
  have h1 : r1.1 = true := by decide
  refine insert_get_remove_roundtrip 4 (fun x => x) s (by decide) (by decide)
    (by decide) 1 7 0 (by decide) r1.2 ?_
  rw [← h1]

/-! ## Resize machinery: live-list congruence and update permutations -/

theorem reinsertSlots_eq_foldl (ins : LinearProbeHashTable → Nat → Nat → LinearProbeHashTable)
    (b : HashTableBlockPage) :
    ∀ (rem ind : Nat) (s : LinearProbeHashTable),
    reinsertSlots ins b ind rem s
      = List.foldl (fun t p => ins t p.1 p.2) s (blockLiveAux b ind rem)
  | 0, _, _ => rfl
  | rem + 1, ind, s => by
    unfold reinsertSlots blockLiveAux
    by_cases hr : b.IsReadable ind = true
    · simp only [hr, if_true, List.cons_append, List.nil_append, List.foldl_cons]
      exact reinsertSlots_eq_foldl ins b rem (ind + 1) _
    · simp only [Bool.not_eq_true] at hr
      simp only [hr, Bool.false_eq_true, if_false, List.nil_append]
      exact reinsertSlots_eq_foldl ins b rem (ind + 1) s

theorem blockLiveAux_congr (b1 b2 : HashTableBlockPage) :
    ∀ (rem ind0 : Nat),
    (∀ j, ind0 ≤ j → j < ind0 + rem → b1.IsReadable j = b2.IsReadable j
      ∧ b1.KeyAt j = b2.KeyAt j ∧ b1.ValueAt j = b2.ValueAt j) →
    blockLiveAux b1 ind0 rem = blockLiveAux b2 ind0 rem
  | 0, _, _ => rfl
  | rem + 1, ind0, h => by
    unfold blockLiveAux
    obtain ⟨hr, hk, hv⟩ := h ind0 (Nat.le_refl _) (by omega)
    rw [hr, hk, hv, blockLiveAux_congr b1 b2 rem (ind0 + 1)
      (fun j h1 h2 => h j (by omega) (by omega))]

theorem blockLiveAux_insert_perm (N : Nat) (b : HashTableBlockPage) (ind k v : Nat)
    (hsz : blockSized N b) (hind : ind < N) (hocc : b.IsOccupied ind = false)
    (hnr : b.IsReadable ind = false) :
    ∀ (rem ind0 : Nat), ind0 ≤ ind → ind < ind0 + rem →
    ((blockLiveAux ((b.Insert ind k v).2) ind0 rem).Perm
      ((k, v) :: blockLiveAux b ind0 rem))
  | 0, ind0, h1, h2 => absurd h2 (by omega)
  | rem + 1, ind0, h1, h2 => by
    obtain ⟨hlo, hlr, hla⟩ := hsz
    have hb2 : (b.Insert ind k v).2 =
        { occupied := b.occupied.set ind true
          readable := b.readable.set ind true
          array := b.array.set ind (k, v) } := by
      unfold HashTableBlockPage.Insert
      rw [if_neg (by simp [hocc])]
    have hacc : ∀ j, j ≠ ind → ((b.Insert ind k v).2.IsReadable j = b.IsReadable j
        ∧ (b.Insert ind k v).2.KeyAt j = b.KeyAt j
        ∧ (b.Insert ind k v).2.ValueAt j = b.ValueAt j) := by
      intro j hj
      rw [hb2]
      unfold HashTableBlockPage.IsReadable HashTableBlockPage.KeyAt
        HashTableBlockPage.ValueAt
      exact ⟨getD_set_ne _ _ _ _ _ hj, by rw [getD_set_ne _ _ _ _ _ hj],
        by rw [getD_set_ne _ _ _ _ _ hj]⟩
    by_cases hcase : ind0 = ind
    · subst hcase
      unfold blockLiveAux
      have hr2 : (b.Insert ind0 k v).2.IsReadable ind0 = true := by
        rw [hb2]
        unfold HashTableBlockPage.IsReadable
        exact getD_set_self _ _ _ _ (by rw [hlr]; exact hind)
      have hk2 : (b.Insert ind0 k v).2.KeyAt ind0 = k := by
        rw [hb2]
        unfold HashTableBlockPage.KeyAt
        rw [getD_set_self _ _ _ _ (by rw [hla]; exact hind)]
      have hv2 : (b.Insert ind0 k v).2.ValueAt ind0 = v := by
        rw [hb2]
        unfold HashTableBlockPage.ValueAt
        rw [getD_set_self _ _ _ _ (by rw [hla]; exact hind)]
      rw [hr2, hnr, hk2, hv2]
      rw [blockLiveAux_congr ((b.Insert ind0 k v).2) b rem (ind0 + 1)
        (fun j hj1 _ => hacc j (by omega))]
      simp
    · have h1' : ind0 + 1 ≤ ind := Nat.lt_of_le_of_ne h1 hcase
      unfold blockLiveAux
      obtain ⟨hr, hk, hv⟩ := hacc ind0 hcase
      rw [hr, hk, hv]
      have hrec := blockLiveAux_insert_perm N b ind k v ⟨hlo, hlr, hla⟩ hind hocc hnr
        rem (ind0 + 1) h1' (by omega)
      exact List.Perm.trans (List.Perm.append_left _ hrec) List.perm_middle

theorem liveBlocksAux_congr (N : Nat) (ps1 ps2 : PageStore)
    (hdr1 hdr2 : HashTableHeaderPage) :
    ∀ (rem i : Nat),
    (∀ t, i ≤ t → t < i + rem →
      fetchBlock ps1 (hdr1.GetBlockPageId t) = fetchBlock ps2 (hdr2.GetBlockPageId t)) →
    liveBlocksAux N ps1 hdr1 i rem = liveBlocksAux N ps2 hdr2 i rem
  | 0, _, _ => rfl
  | rem + 1, i, h => by
    unfold liveBlocksAux
    rw [h i (Nat.le_refl _) (by omega),
      liveBlocksAux_congr N ps1 ps2 hdr1 hdr2 rem (i + 1)
        (fun t h1 h2 => h t (by omega) (by omega))]

theorem liveBlocksAux_insert_perm (N : Nat) (ps1 ps2 : PageStore)
    (hdr1 hdr2 : HashTableHeaderPage) (x : Nat × Nat) (tj : Nat) :
    ∀ (rem i : Nat), i ≤ tj → tj < i + rem →
    (∀ t, i ≤ t → t < i + rem → t ≠ tj →
      fetchBlock ps2 (hdr2.GetBlockPageId t) = fetchBlock ps1 (hdr1.GetBlockPageId t)) →
    ((blockLiveAux (fetchBlock ps2 (hdr2.GetBlockPageId tj)) 0 N).Perm
      (x :: blockLiveAux (fetchBlock ps1 (hdr1.GetBlockPageId tj)) 0 N)) →
    ((liveBlocksAux N ps2 hdr2 i rem).Perm (x :: liveBlocksAux N ps1 hdr1 i rem))
  | 0, i, h1, h2, _, _ => absurd h2 (by omega)
  | rem + 1, i, h1, h2, hoth, hperm => by
    unfold liveBlocksAux
    by_cases hcase : i = tj
    · subst hcase
      have htail : liveBlocksAux N ps2 hdr2 (i + 1) rem
          = liveBlocksAux N ps1 hdr1 (i + 1) rem :=
        liveBlocksAux_congr N ps2 ps1 hdr2 hdr1 rem (i + 1)
          (fun t ht1 ht2 => hoth t (by omega) (by omega) (by omega))
      rw [htail]
      have := hperm.append_right (liveBlocksAux N ps1 hdr1 (i + 1) rem)
      rwa [List.cons_append] at this
    · have h1' : i + 1 ≤ tj := Nat.lt_of_le_of_ne h1 hcase
      have hhead : fetchBlock ps2 (hdr2.GetBlockPageId i)
          = fetchBlock ps1 (hdr1.GetBlockPageId i) :=
        hoth i (Nat.le_refl _) (by omega) hcase
      rw [hhead]
      have hrec := liveBlocksAux_insert_perm N ps1 ps2 hdr1 hdr2 x tj rem (i + 1)
        h1' (by omega) (fun t ht1 ht2 => hoth t (by omega) (by omega)) hperm
      exact List.Perm.trans (List.Perm.append_left _ hrec) List.perm_middle

theorem zeroBlock_accessors (N ind : Nat) :
    (zeroBlock N).IsOccupied ind = false ∧ (zeroBlock N).IsReadable ind = false := by
  unfold zeroBlock HashTableBlockPage.IsOccupied HashTableBlockPage.IsReadable
  constructor <;>
  · rw [List.getD_eq_getElem?_getD, List.getElem?_replicate]
    by_cases h : ind < N <;> simp [h]

theorem blockLiveAux_zero (N : Nat) :
    ∀ (rem ind : Nat), blockLiveAux (zeroBlock N) ind rem = []
  | 0, _ => rfl
  | rem + 1, ind => by
    unfold blockLiveAux
    rw [(zeroBlock_accessors N ind).2]
    simp only [Bool.false_eq_true, if_false, List.nil_append]
    exact blockLiveAux_zero N rem (ind + 1)

theorem liveBlocksAux_nil (N : Nat) (ps : PageStore) (hdr : HashTableHeaderPage) :
    ∀ (rem i : Nat),
    (∀ t, i ≤ t → t < i + rem →
      blockLiveAux (fetchBlock ps (hdr.GetBlockPageId t)) 0 N = []) →
    liveBlocksAux N ps hdr i rem = []
  | 0, _, _ => rfl
  | rem + 1, i, h => by
    unfold liveBlocksAux
    rw [h i (Nat.le_refl _) (by omega),
      liveBlocksAux_nil N ps hdr rem (i + 1) (fun t h1 h2 => h t (by omega) (by omega))]
    rfl

theorem filter_length_update (l : List Nat) (p q : Nat → Bool) (j : Nat) :
    l.Nodup → j ∈ l → p j = false → q j = true →
    (∀ x ∈ l, x ≠ j → q x = p x) →
    (l.filter q).length = (l.filter p).length + 1 := by
  induction l with
  | nil => intro _ hj; exact absurd hj (List.not_mem_nil j)
  | cons a t ih =>
    intro hnd hj hp hq hsame
    have hndt : t.Nodup := (List.nodup_cons.1 hnd).2
    by_cases hcase : a = j
    · subst hcase
      have hat : a ∉ t := (List.nodup_cons.1 hnd).1
      have hft : t.filter q = t.filter p := by
        apply List.filter_congr
        intro x hx
        exact hsame x (List.mem_cons_of_mem a hx) (fun hc => hat (hc ▸ hx))
      simp only [List.filter_cons, hp, hq, Bool.false_eq_true, if_false, if_true,
        List.length_cons, hft]
    · have hjt : j ∈ t := by
        rcases List.mem_cons.1 hj with h | h
        · exact absurd h.symm hcase
        · exact h
      have ha : q a = p a := hsame a (List.mem_cons_self a t) hcase
      have hrec := ih hndt hjt hp hq
        (fun x hx hne => hsame x (List.mem_cons_of_mem a hx) hne)
      simp only [List.filter_cons, ha]
      by_cases hpa : p a = true
      · simp only [hpa, if_true, List.length_cons, hrec]
      · simp only [Bool.not_eq_true] at hpa
        simp only [hpa, Bool.false_eq_true, if_false, hrec]

/-! ## applyIns: effect on the live multiset, the occupancy count, and
distant pages -/

theorem readAt_false_of_occ_false (N : Nat) (s : LinearProbeHashTable)
    (hN : 0 < N) (hwf : WFidx N s) (off : Nat) (hoff : off < s.num_buckets)
    (hocc : occAt N s off = false) : readAt N s off = false := by
  by_cases hr : readAt N s off = true
  · unfold readAt bucketBlock at hr
    have h2 := hwf.2.2.2.2.1 (off / N) (div_lt_numBlocks N s hN hwf off hoff)
      (off % N) (Nat.mod_lt _ hN) hr
    unfold occAt bucketBlock at hocc
    rw [h2] at hocc
    exact absurd hocc (by simp)
  · simpa using hr

theorem applyIns_liveList (N : Nat) (s : LinearProbeHashTable) (off k v : Nat)
    (hN : 0 < N) (hwf : WFidx N s) (hoff : off < s.num_buckets)
    (hocc : occAt N s off = false) :
    (liveList N (applyIns N s (hdrOf s) off k v)).Perm ((k, v) :: liveList N s) := by
  have hnr := readAt_false_of_occ_false N s hN hwf off hoff hocc
  have hnbk : (hdrOf (applyIns N s (hdrOf s) off k v)).NumBlocks
      = (hdrOf s).NumBlocks := by
    rw [hdrOf_applyIns]
    unfold HashTableHeaderPage.NumBlocks
    rw [block_page_ids_SetSize]
  have hgb : ∀ i, (hdrOf (applyIns N s (hdrOf s) off k v)).GetBlockPageId i
      = (hdrOf s).GetBlockPageId i := fun i => by
    rw [hdrOf_applyIns, GetBlockPageId_SetSize]
  have hdivlt := div_lt_numBlocks N s hN hwf off hoff
  unfold liveList
  rw [hnbk]
  refine liveBlocksAux_insert_perm N s.store
    (applyIns N s (hdrOf s) off k v).store (hdrOf s)
    (hdrOf (applyIns N s (hdrOf s) off k v)) (k, v) (off / N)
    (hdrOf s).NumBlocks 0 (Nat.zero_le _) (by simpa using hdivlt) ?_ ?_
  · intro t h1 h2 hne
    rw [hgb]
    have ht : t < (hdrOf s).NumBlocks := by simpa using h2
    have hnph : (hdrOf s).GetBlockPageId t ≠ s.header_page_id := fun hc =>
      hwf.2.2.2.2.2.2.1 (hc ▸ getBlockPageId_mem _ t ht)
    rw [fetchBlock_applyIns N s off k v _ hnph,
      if_neg (show (hdrOf s).GetBlockPageId t ≠ (hdrOf s).GetBlockPageId (off / N)
        from nodup_getD_ne _ hwf.2.2.2.2.2.1 t (off / N) ht hdivlt hne 0)]
  · rw [hgb]
    have hnph : (hdrOf s).GetBlockPageId (off / N) ≠ s.header_page_id :=
      bucketPid_ne_header N s hN hwf off hoff
    rw [fetchBlock_applyIns N s off k v _ hnph, if_pos rfl]
    have hbsz := blockSized_bucket N s hN hwf off hoff
    have hperm := blockLiveAux_insert_perm N (bucketBlock N s off) (off % N) k v
      hbsz (Nat.mod_lt _ hN) hocc hnr N 0 (Nat.zero_le _)
      (by simpa using Nat.mod_lt off hN)
    exact hperm

theorem applyIns_occCount (N : Nat) (s : LinearProbeHashTable) (off k v : Nat)
    (hN : 0 < N) (hwf : WFidx N s) (hoff : off < s.num_buckets)
    (hocc : occAt N s off = false) :
    occCount N (applyIns N s (hdrOf s) off k v) = occCount N s + 1 := by
  unfold occCount
  rw [(applyIns_fields N s off k v).1]
  refine filter_length_update (List.range s.num_buckets) (fun o => occAt N s o)
    (fun o => occAt N (applyIns N s (hdrOf s) off k v) o) off
    (List.nodup_range _) (List.mem_range.2 hoff) hocc ?_ ?_
  · show occAt N (applyIns N s (hdrOf s) off k v) off = true
    rw [(applyIns_accessors N s off k v hN hwf hoff hocc off hoff).1, if_pos rfl]
  · intro x hx hne
    show occAt N (applyIns N s (hdrOf s) off k v) x = occAt N s x
    rw [(applyIns_accessors N s off k v hN hwf hoff hocc x (List.mem_range.1 hx)).1,
      if_neg hne]

theorem applyIns_mem_frame (N : Nat) (s : LinearProbeHashTable) (off k v : Nat)
    (pid2 : Nat) (hnid : pid2 ≠ (hdrOf s).GetBlockPageId (off / N))
    (hnph : pid2 ≠ s.header_page_id) :
    (applyIns N s (hdrOf s) off k v).store.mem pid2 = s.store.mem pid2 := by
  simp only [applyIns, PageStore.writePage]
  rw [if_neg hnph, if_neg hnid]

/-! ## DeletePage: views of the store after freeing a page -/

theorem mem_deletePage (ps : PageStore) (pid q : Nat) (h : q ≠ pid) :
    (ps.DeletePage pid).mem q = ps.mem q := by
  simp only [PageStore.DeletePage]
  rw [if_neg h]

theorem fetchBlock_deletePage (ps : PageStore) (pid q : Nat) (h : q ≠ pid) :
    fetchBlock (ps.DeletePage pid) q = fetchBlock ps q := by
  unfold fetchBlock
  rw [mem_deletePage ps pid q h]

theorem fetchHeader_deletePage (ps : PageStore) (pid q : Nat) (h : q ≠ pid) :
    fetchHeader (ps.DeletePage pid) q = fetchHeader ps q := by
  unfold fetchHeader
  rw [mem_deletePage ps pid q h]

theorem isHeaderB_deletePage (ps : PageStore) (pid q : Nat) (h : q ≠ pid) :
    isHeaderB (ps.DeletePage pid) q = isHeaderB ps q := by
  unfold isHeaderB
  rw [mem_deletePage ps pid q h]

theorem isBlockB_deletePage (ps : PageStore) (pid q : Nat) (h : q ≠ pid) :
    isBlockB (ps.DeletePage pid) q = isBlockB ps q := by
  unfold isBlockB
  rw [mem_deletePage ps pid q h]

theorem next_pid_deletePage (ps : PageStore) (pid : Nat) :
    (ps.DeletePage pid).next_pid = ps.next_pid := rfl

/-! ## A single `Insert` from a not-full table without the pair -/

theorem exists_probe_hit (nb b0 target : Nat) (hnb : 0 < nb) (hb0 : b0 < nb)
    (ht : target < nb) : ∃ i < nb, (b0 + i) % nb = target := by
  refine ⟨(target + nb - b0) % nb, Nat.mod_lt _ hnb, ?_⟩
  have h1 : (b0 + (target + nb - b0) % nb) % nb = (b0 + (target + nb - b0)) % nb := by
    rw [Nat.add_mod b0, Nat.mod_mod_of_dvd _ (dvd_refl nb), ← Nat.add_mod]
  have h2 : b0 + (target + nb - b0) = target + nb := by omega
  rw [h1, h2, Nat.add_mod_right, Nat.mod_eq_of_lt ht]

/-- From a well-formed table whose occupancy is below `num_buckets` and in
which `(k, v)` is not live, `Insert` succeeds and the result is `applyIns`
at some unoccupied bucket. -/
theorem insert_step_adds_pair (N : Nat) (hashFn : Nat → Nat) (fuel : Nat)
    (s : LinearProbeHashTable) (k v : Nat)
    (hN : 0 < N) (hwf : WFidx N s) (hnb : 0 < s.num_buckets)
    (hsz : s.size = occCount N s) (hlt : occCount N s < s.num_buckets)
    (hnotin : (k, v) ∉ liveList N s) :
    ∃ off < s.num_buckets, occAt N s off = false
      ∧ LinearProbeHashTable.Insert N hashFn (fuel + 1) s k v
        = (true, applyIns N s (hdrOf s) off k v) := by
  have hne : s.size ≠ s.num_buckets := by rw [hsz]; omega
  obtain ⟨off1, hoff1mem, hoff1free⟩ := filter_length_lt_exists_false
    (List.range s.num_buckets) (fun o => occAt N s o)
    (by rw [List.length_range]; exact hlt)
  have hoff1 : off1 < s.num_buckets := List.mem_range.1 hoff1mem
  have hfree1 : occAt N s off1 = false := hoff1free
  set b0 := hashFn k % s.num_buckets with hb0def
  have hb0 : b0 < s.num_buckets := Nat.mod_lt _ hnb
  obtain ⟨i0, hi0, hhit⟩ := exists_probe_hit s.num_buckets b0 off1 hnb hb0 hoff1
  have hex : ∃ i, occAt N s ((b0 + i) % s.num_buckets) = false :=
    ⟨i0, by rw [hhit]; exact hfree1⟩
  have hP0 : occAt N s ((b0 + i0) % s.num_buckets) = false := by
    rw [hhit]; exact hfree1
  refine ⟨(b0 + Nat.find hex) % s.num_buckets, Nat.mod_lt _ hnb,
    Nat.find_spec hex, ?_⟩
  simp only [LinearProbeHashTable.Insert, if_neg hne]
  refine insertLoop_success N s k v s.num_buckets b0 (Nat.find hex) hb0
    (Nat.lt_of_le_of_lt (Nat.find_min' hex hP0) hi0) ?_ ?_ (Nat.find_spec hex)
  · intro i hi
    have h := Nat.find_min hex hi
    simpa using h
  · intro i _
    exact not_live_no_dup N s k v hN hwf hnotin _ (Nat.mod_lt _ hnb)

/-- Folding `Insert` over a duplicate-free batch of pairs disjoint from the
current live set (the reinsertion pattern of `Resize`): every insert
succeeds, so the fold adds exactly the batch to the live multiset and to
`size_`, keeps the directory and every foreign page untouched, and preserves
well-formedness. -/
theorem fold_insert_batch (N : Nat) (hashFn : Nat → Nat) (fuel : Nat) :
    ∀ (pairs : List (Nat × Nat)) (s : LinearProbeHashTable),
    0 < N → WFidx N s → 0 < s.num_buckets →
    s.size = occCount N s →
    occCount N s + pairs.length ≤ s.num_buckets →
    pairs.Nodup →
    (∀ p ∈ pairs, p ∉ liveList N s) →
    ∀ s2, s2 = List.foldl
      (fun t p => (LinearProbeHashTable.Insert N hashFn (fuel + 1) t p.1 p.2).2) s pairs →
    WFidx N s2 ∧ s2.num_buckets = s.num_buckets
      ∧ s2.header_page_id = s.header_page_id
      ∧ (hdrOf s2).block_page_ids = (hdrOf s).block_page_ids
      ∧ s2.size = s.size + pairs.length
      ∧ occCount N s2 = occCount N s + pairs.length
      ∧ s2.store.next_pid = s.store.next_pid
      ∧ (liveList N s2).Perm (pairs ++ liveList N s)
      ∧ (∀ pid2, pid2 ∉ (hdrOf s).block_page_ids → pid2 ≠ s.header_page_id →
          s2.store.mem pid2 = s.store.mem pid2)
  | [], s, hN, hwf, hnb, hsz, hcap, hnd, hdisj, s2, hs2 => by
    subst hs2
    refine ⟨hwf, rfl, rfl, rfl, by simp, by simp, rfl, ?_, fun _ _ _ => rfl⟩
    rw [List.nil_append]
  | (k, v) :: rest, s, hN, hwf, hnb, hsz, hcap, hnd, hdisj, s2, hs2 => by
    rw [List.length_cons] at hcap
    obtain ⟨off, hoff, hocc, hins⟩ := insert_step_adds_pair N hashFn fuel s k v
      hN hwf hnb hsz (by omega) (hdisj (k, v) (List.mem_cons_self _ _))
    rw [List.foldl_cons] at hs2
    have hstep : (LinearProbeHashTable.Insert N hashFn (fuel + 1) s (k, v).1 (k, v).2).2
        = applyIns N s (hdrOf s) off k v := by
      show (LinearProbeHashTable.Insert N hashFn (fuel + 1) s k v).2 = _
      rw [hins]
    rw [hstep] at hs2
    have hwfA := applyIns_WF N s off k v hN hwf hoff hocc
    have hfA := applyIns_fields N s off k v
    have hliveA := applyIns_liveList N s off k v hN hwf hoff hocc
    have hoccA := applyIns_occCount N s off k v hN hwf hoff hocc
    have hidsA : (hdrOf (applyIns N s (hdrOf s) off k v)).block_page_ids
        = (hdrOf s).block_page_ids := by
      rw [hdrOf_applyIns, block_page_ids_SetSize]
    have hnbA : 0 < (applyIns N s (hdrOf s) off k v).num_buckets := by
      rw [hfA.1]; exact hnb
    have hszA : (applyIns N s (hdrOf s) off k v).size
        = occCount N (applyIns N s (hdrOf s) off k v) := by
      rw [hfA.2.2.1, hoccA, hsz]
    have hcapA : occCount N (applyIns N s (hdrOf s) off k v) + rest.length
        ≤ (applyIns N s (hdrOf s) off k v).num_buckets := by
      rw [hoccA, hfA.1]; omega
    have hdisjA : ∀ p ∈ rest, p ∉ liveList N (applyIns N s (hdrOf s) off k v) := by
      intro p hp hmem
      rcases List.mem_cons.1 (hliveA.mem_iff.1 hmem) with he | hm
      · exact (List.nodup_cons.1 hnd).1 (he ▸ hp)
      · exact hdisj p (List.mem_cons_of_mem _ hp) hm
    obtain ⟨hwf2, hnb2, hpid2, hids2, hsz2, hocc2, hnext2, hlive2, hframe2⟩ :=
      fold_insert_batch N hashFn fuel rest (applyIns N s (hdrOf s) off k v)
        hN hwfA hnbA hszA hcapA (List.nodup_cons.1 hnd).2 hdisjA s2 hs2
    refine ⟨hwf2, by rw [hnb2, hfA.1], by rw [hpid2, hfA.2.1],
      by rw [hids2, hidsA],
      by rw [hsz2, hfA.2.2.1, List.length_cons]; omega,
      by rw [hocc2, hoccA, List.length_cons]; omega,
      by rw [hnext2, hfA.2.2.2], ?_, ?_⟩
    · refine hlive2.trans ((List.Perm.append_left rest hliveA).trans ?_)
      rw [List.cons_append]
      exact List.perm_middle
    · intro pid2 hpn hph
      have h1 := hframe2 pid2 (by rw [hidsA]; exact hpn) (by rw [hfA.2.1]; exact hph)
      rw [h1]
      exact applyIns_mem_frame N s off k v pid2
        (fun hc => hpn (hc ▸ bucketPid_mem N s hN hwf off hoff)) hph

/-! ## Freeing a page outside the directory preserves every index view -/

theorem bucketBlock_deletePage (N : Nat) (hN : 0 < N) (s1 : LinearProbeHashTable)
    (pid : Nat) (hnph : pid ≠ s1.header_page_id) (hwf : WFidx N s1)
    (hnid : pid ∉ (hdrOf s1).block_page_ids) (off : Nat) (hoff : off < s1.num_buckets) :
    bucketBlock N { s1 with store := s1.store.DeletePage pid } off
      = bucketBlock N s1 off := by
  have hD : hdrOf { s1 with store := s1.store.DeletePage pid } = hdrOf s1 := by
    show fetchHeader (s1.store.DeletePage pid) s1.header_page_id = _
    exact fetchHeader_deletePage _ _ _ (Ne.symm hnph)
  unfold bucketBlock
  rw [hD]
  show fetchBlock (s1.store.DeletePage pid) ((hdrOf s1).GetBlockPageId (off / N)) = _
  refine fetchBlock_deletePage _ _ _ ?_
  intro hc
  exact hnid (hc ▸ getBlockPageId_mem _ _ (div_lt_numBlocks N s1 hN hwf off hoff))

theorem deletePage_foreign (N : Nat) (hN : 0 < N) (s1 : LinearProbeHashTable)
    (pid : Nat) (hnid : pid ∉ (hdrOf s1).block_page_ids)
    (hnph : pid ≠ s1.header_page_id) (hwf : WFidx N s1) :
    hdrOf { s1 with store := s1.store.DeletePage pid } = hdrOf s1
    ∧ WFidx N { s1 with store := s1.store.DeletePage pid }
    ∧ occCount N { s1 with store := s1.store.DeletePage pid } = occCount N s1
    ∧ liveList N { s1 with store := s1.store.DeletePage pid } = liveList N s1 := by
  have hD : hdrOf { s1 with store := s1.store.DeletePage pid } = hdrOf s1 := by
    show fetchHeader (s1.store.DeletePage pid) s1.header_page_id = _
    exact fetchHeader_deletePage _ _ _ (Ne.symm hnph)
  have hpidne : ∀ i, i < (hdrOf s1).NumBlocks → (hdrOf s1).GetBlockPageId i ≠ pid := by
    intro i hi hc
    exact hnid (hc ▸ getBlockPageId_mem _ i hi)
  have hfb : ∀ i, i < (hdrOf s1).NumBlocks →
      fetchBlock (s1.store.DeletePage pid) ((hdrOf s1).GetBlockPageId i)
        = fetchBlock s1.store ((hdrOf s1).GetBlockPageId i) := by
    intro i hi
    exact fetchBlock_deletePage _ _ _ (hpidne i hi)
  refine ⟨hD, ⟨?_, ?_, ?_, ?_, ?_, ?_, ?_, ?_, ?_⟩, ?_, ?_⟩
  · show isHeaderB (s1.store.DeletePage pid) s1.header_page_id = true
    rw [isHeaderB_deletePage _ _ _ (Ne.symm hnph)]
    exact hwf.1
  · show s1.num_buckets ≤ _
    rw [hD]
    exact hwf.2.1
  · intro i hi
    rw [hD] at hi ⊢
    show isBlockB (s1.store.DeletePage pid) _ = true
    rw [isBlockB_deletePage _ _ _ (hpidne i hi)]
    exact hwf.2.2.1 i hi
  · intro i hi
    rw [hD] at hi ⊢
    show blockSized N (fetchBlock (s1.store.DeletePage pid) _)
    rw [hfb i hi]
    exact hwf.2.2.2.1 i hi
  · intro i hi
    rw [hD] at hi ⊢
    show ∀ ind < N,
      (fetchBlock (s1.store.DeletePage pid) ((hdrOf s1).GetBlockPageId i)).IsReadable
        ind = true →
      (fetchBlock (s1.store.DeletePage pid) ((hdrOf s1).GetBlockPageId i)).IsOccupied
        ind = true
    rw [hfb i hi]
    exact hwf.2.2.2.2.1 i hi
  · rw [hD]
    exact hwf.2.2.2.2.2.1
  · show s1.header_page_id ∉ _
    rw [hD]
    exact hwf.2.2.2.2.2.2.1
  · show s1.header_page_id < (s1.store.DeletePage pid).next_pid
    rw [next_pid_deletePage]
    exact hwf.2.2.2.2.2.2.2.1
  · intro i hi
    rw [hD] at hi ⊢
    show _ < (s1.store.DeletePage pid).next_pid
    rw [next_pid_deletePage]
    exact hwf.2.2.2.2.2.2.2.2 i hi
  · show ((List.range s1.num_buckets).filter
        (fun off => occAt N { s1 with store := s1.store.DeletePage pid } off)).length
      = ((List.range s1.num_buckets).filter (fun off => occAt N s1 off)).length
    rw [List.filter_congr (fun off hoff => ?_)]
    show occAt N { s1 with store := s1.store.DeletePage pid } off = occAt N s1 off
    unfold occAt
    rw [bucketBlock_deletePage N hN s1 pid hnph hwf hnid off (List.mem_range.1 hoff)]
  · show liveBlocksAux N (s1.store.DeletePage pid)
        (hdrOf { s1 with store := s1.store.DeletePage pid }) 0
        (hdrOf { s1 with store := s1.store.DeletePage pid }).NumBlocks
      = liveBlocksAux N s1.store (hdrOf s1) 0 (hdrOf s1).NumBlocks
    rw [hD]
    exact liveBlocksAux_congr N (s1.store.DeletePage pid) s1.store (hdrOf s1)
      (hdrOf s1) (hdrOf s1).NumBlocks 0 (fun t h1 h2 => hfb t (by simpa using h2))

/-! ## The reinsertion sweep of `Resize` -/

/-- The outer loop of `Resize` over blocks `[i, i + rem)` of the old
directory: given that the new table is well formed with enough free buckets,
the old blocks are intact in the store, foreign to the new directory and
mutually distinct, the sweep inserts exactly the old live pairs (a
permutation), adds their number to `size_`, and leaves the new directory in
place. -/
theorem reinsertBlocks_spec (N : Nat) (hashFn : Nat → Nat) (fuel : Nat)
    (ps0 : PageStore) (hdr0 : HashTableHeaderPage) :
    ∀ (rem i : Nat) (s : LinearProbeHashTable),
    0 < N → WFidx N s → 0 < s.num_buckets →
    s.size = occCount N s →
    occCount N s + (liveBlocksAux N ps0 hdr0 i rem).length ≤ s.num_buckets →
    (liveBlocksAux N ps0 hdr0 i rem).Nodup →
    (∀ p ∈ liveBlocksAux N ps0 hdr0 i rem, p ∉ liveList N s) →
    (∀ t, i ≤ t → t < i + rem →
      s.store.mem (hdr0.GetBlockPageId t) = ps0.mem (hdr0.GetBlockPageId t)) →
    (∀ t, i ≤ t → t < i + rem → hdr0.GetBlockPageId t ∉ (hdrOf s).block_page_ids
      ∧ hdr0.GetBlockPageId t ≠ s.header_page_id) →
    (∀ t u, i ≤ t → t < u → u < i + rem →
      hdr0.GetBlockPageId t ≠ hdr0.GetBlockPageId u) →
    ∀ s2, s2 = reinsertBlocks N
      (fun t k v => (LinearProbeHashTable.Insert N hashFn (fuel + 1) t k v).2)
      hdr0 i rem s →
    WFidx N s2 ∧ s2.num_buckets = s.num_buckets
      ∧ s2.header_page_id = s.header_page_id
      ∧ (hdrOf s2).block_page_ids = (hdrOf s).block_page_ids
      ∧ s2.size = s.size + (liveBlocksAux N ps0 hdr0 i rem).length
      ∧ occCount N s2 = occCount N s + (liveBlocksAux N ps0 hdr0 i rem).length
      ∧ s2.store.next_pid = s.store.next_pid
      ∧ (liveList N s2).Perm (liveBlocksAux N ps0 hdr0 i rem ++ liveList N s)
  | 0, i, s, hN, hwf, hnb, hsz, hcap, hnd, hdisj, hreg, hfor, hdist, s2, hs2 => by
    simp only [reinsertBlocks] at hs2
    rw [hs2]
    refine ⟨hwf, rfl, rfl, rfl, by simp [liveBlocksAux], by simp [liveBlocksAux],
      rfl, ?_⟩
    show (liveList N s).Perm ([] ++ liveList N s)
    rw [List.nil_append]
  | rem + 1, i, s, hN, hwf, hnb, hsz, hcap, hnd, hdisj, hreg, hfor, hdist, s2, hs2 => by
    simp only [reinsertBlocks] at hs2
    have hb : fetchBlock s.store (hdr0.GetBlockPageId i)
        = fetchBlock ps0 (hdr0.GetBlockPageId i) := by
      unfold fetchBlock
      rw [hreg i (Nat.le_refl _) (by omega)]
    rw [hb] at hs2
    have hfull : liveBlocksAux N ps0 hdr0 i (rem + 1)
        = blockLiveAux (fetchBlock ps0 (hdr0.GetBlockPageId i)) 0 N
          ++ liveBlocksAux N ps0 hdr0 (i + 1) rem := rfl
    rw [hfull, List.length_append] at hcap
    obtain ⟨hnd1, hndT, hdisj12⟩ := List.nodup_append.1 (hfull ▸ hnd)
    obtain ⟨Fwf, Fnb, Fpid, Fids, Fsz, Focc, Fnext, Flive, Fframe⟩ :=
      fold_insert_batch N hashFn fuel
        (blockLiveAux (fetchBlock ps0 (hdr0.GetBlockPageId i)) 0 N) s
        hN hwf hnb hsz (by omega) hnd1
        (fun p hp => hdisj p (hfull ▸ List.mem_append_left _ hp)) _
        (reinsertSlots_eq_foldl
          (fun t k v => (LinearProbeHashTable.Insert N hashFn (fuel + 1) t k v).2)
          (fetchBlock ps0 (hdr0.GetBlockPageId i)) N 0 s)
    set s1 := reinsertSlots
      (fun t k v => (LinearProbeHashTable.Insert N hashFn (fuel + 1) t k v).2)
      (fetchBlock ps0 (hdr0.GetBlockPageId i)) 0 N s with hs1def
    have hd1 : hdr0.GetBlockPageId i ∉ (hdrOf s1).block_page_ids := by
      rw [Fids]
      exact (hfor i (Nat.le_refl _) (by omega)).1
    have hd2 : hdr0.GetBlockPageId i ≠ s1.header_page_id := by
      rw [Fpid]
      exact (hfor i (Nat.le_refl _) (by omega)).2
    obtain ⟨Dhdr, Dwf, Docc, Dlive⟩ :=
      deletePage_foreign N hN s1 (hdr0.GetBlockPageId i) hd1 hd2 Fwf
    have hnbD : 0 < ({ s1 with store := s1.store.DeletePage (hdr0.GetBlockPageId i) }
        : LinearProbeHashTable).num_buckets := by
      show 0 < s1.num_buckets
      rw [Fnb]
      exact hnb
    have hszD : ({ s1 with store := s1.store.DeletePage (hdr0.GetBlockPageId i) }
        : LinearProbeHashTable).size
        = occCount N { s1 with store := s1.store.DeletePage (hdr0.GetBlockPageId i) } := by
      show s1.size = _
      rw [Docc, Fsz, Focc, hsz]
    have hcapD : occCount N
          { s1 with store := s1.store.DeletePage (hdr0.GetBlockPageId i) }
        + (liveBlocksAux N ps0 hdr0 (i + 1) rem).length
        ≤ ({ s1 with store := s1.store.DeletePage (hdr0.GetBlockPageId i) }
          : LinearProbeHashTable).num_buckets := by
      show _ ≤ s1.num_buckets
      rw [Docc, Focc, Fnb]
      omega
    have hdisjD : ∀ p ∈ liveBlocksAux N ps0 hdr0 (i + 1) rem,
        p ∉ liveList N { s1 with store := s1.store.DeletePage (hdr0.GetBlockPageId i) } := by
      intro p hp hmem
      rw [Dlive] at hmem
      rcases List.mem_append.1 (Flive.mem_iff.1 hmem) with hm | hm
      · exact hdisj12 hm hp
      · exact hdisj p (hfull ▸ List.mem_append_right _ hp) hm
    have hregD : ∀ t, i + 1 ≤ t → t < i + 1 + rem →
        ({ s1 with store := s1.store.DeletePage (hdr0.GetBlockPageId i) }
          : LinearProbeHashTable).store.mem (hdr0.GetBlockPageId t)
        = ps0.mem (hdr0.GetBlockPageId t) := by
      intro t h1 h2
      show (s1.store.DeletePage (hdr0.GetBlockPageId i)).mem (hdr0.GetBlockPageId t) = _
      rw [mem_deletePage _ _ _
        (Ne.symm (hdist i t (Nat.le_refl _) h1 (by omega)))]
      rw [Fframe (hdr0.GetBlockPageId t) (hfor t (by omega) (by omega)).1
        (hfor t (by omega) (by omega)).2]
      exact hreg t (by omega) (by omega)
    have hforD : ∀ t, i + 1 ≤ t → t < i + 1 + rem →
        hdr0.GetBlockPageId t ∉ (hdrOf { s1 with
          store := s1.store.DeletePage (hdr0.GetBlockPageId i) }).block_page_ids
        ∧ hdr0.GetBlockPageId t ≠ ({ s1 with
          store := s1.store.DeletePage (hdr0.GetBlockPageId i) }
          : LinearProbeHashTable).header_page_id := by
      intro t h1 h2
      constructor
      · rw [Dhdr, Fids]
        exact (hfor t (by omega) (by omega)).1
      · show hdr0.GetBlockPageId t ≠ s1.header_page_id
        rw [Fpid]
        exact (hfor t (by omega) (by omega)).2
    obtain ⟨Rwf, Rnb, Rpid, Rids, Rsz, Rocc, Rnext, Rlive⟩ :=
      reinsertBlocks_spec N hashFn fuel ps0 hdr0 rem (i + 1) _
        hN Dwf hnbD hszD hcapD hndT hdisjD hregD hforD
        (fun t u h1 h2 h3 => hdist t u (by omega) h2 (by omega)) s2 hs2
    rw [Dlive] at Rlive
    rw [Docc] at Rocc
    refine ⟨Rwf, ?_, ?_, ?_, ?_, ?_, ?_, ?_⟩
    · rw [Rnb]
      show s1.num_buckets = _
      rw [Fnb]
    · rw [Rpid]
      show s1.header_page_id = _
      rw [Fpid]
    · rw [Rids, Dhdr, Fids]
    · rw [hfull, List.length_append]
      rw [Rsz]
      show s1.size + _ = _
      rw [Fsz]
      omega
    · rw [hfull, List.length_append, Rocc, Focc]
      omega
    · rw [Rnext]
      show s1.store.next_pid = _
      rw [Fnext]
    · rw [hfull]
      refine Rlive.trans ?_
      refine ((List.Perm.append_left _ Flive).trans ?_)
      have hassoc : (liveBlocksAux N ps0 hdr0 (i + 1) rem
            ++ (blockLiveAux (fetchBlock ps0 (hdr0.GetBlockPageId i)) 0 N
              ++ liveList N s)).Perm
          ((liveBlocksAux N ps0 hdr0 (i + 1) rem
            ++ blockLiveAux (fetchBlock ps0 (hdr0.GetBlockPageId i)) 0 N)
            ++ liveList N s) := by
        rw [List.append_assoc]
      refine hassoc.trans ?_
      exact List.Perm.append_right _ List.perm_append_comm

/-! ## Helpers for the fresh directory built by `Resize` -/

theorem range'_mem_bound (x : Nat) : ∀ (n s : Nat), x ∈ List.range' s n →
    s ≤ x ∧ x < s + n
  | 0, s, h => absurd h (by simp [List.range'] at h ⊢)
  | n + 1, s, h => by
    rw [show List.range' s (n + 1) = s :: List.range' (s + 1) n from rfl] at h
    rcases List.mem_cons.1 h with he | hm
    · omega
    · have := range'_mem_bound x n (s + 1) hm
      omega

theorem range'_nodup : ∀ (n s : Nat), (List.range' s n).Nodup
  | 0, s => by simp [show List.range' s 0 = [] from rfl]
  | n + 1, s => by
    rw [show List.range' s (n + 1) = s :: List.range' (s + 1) n from rfl]
    refine List.nodup_cons.2 ⟨fun hmem => ?_, range'_nodup n (s + 1)⟩
    have := range'_mem_bound s n (s + 1) hmem
    omega

theorem range'_getD : ∀ (n s i : Nat), i < n → (List.range' s n).getD i 0 = s + i
  | 0, _, i, h => absurd h (by omega)
  | n + 1, s, 0, _ => by
    rw [show List.range' s (n + 1) = s :: List.range' (s + 1) n from rfl]
    rfl
  | n + 1, s, i + 1, h => by
    rw [show List.range' s (n + 1) = s :: List.range' (s + 1) n from rfl,
      List.getD_cons_succ, range'_getD n (s + 1) i (by omega)]
    omega

theorem range'_length : ∀ (n s : Nat), (List.range' s n).length = n
  | 0, _ => rfl
  | n + 1, s => by
    rw [show List.range' s (n + 1) = s :: List.range' (s + 1) n from rfl,
      List.length_cons, range'_length n (s + 1)]

theorem mem_writePage_self (ps : PageStore) (pid : Nat) (p : StoredPage) :
    (ps.writePage pid p).mem pid = some p := by
  simp [PageStore.writePage]

theorem mem_writePage_other (ps : PageStore) (pid : Nat) (p : StoredPage)
    (q : Nat) (h : q ≠ pid) : (ps.writePage pid p).mem q = ps.mem q := by
  simp [PageStore.writePage, h]

theorem mem_NewPage_other (ps : PageStore) (p : StoredPage) (q : Nat)
    (h : q ≠ ps.next_pid) : (ps.NewPage p).2.mem q = ps.mem q := by
  simp [PageStore.NewPage, h]

theorem filter_len_zero (l : List Nat) (p : Nat → Bool)
    (h : ∀ x ∈ l, p x = false) : (l.filter p).length = 0 := by
  induction l with
  | nil => rfl
  | cons a t ih =>
    simp only [List.filter_cons, h a (List.mem_cons_self a t), Bool.false_eq_true,
      if_false]
    exact ih (fun x hx => h x (List.mem_cons_of_mem a hx))

theorem blockSized_zero (N : Nat) : blockSized N (zeroBlock N) := by
  unfold blockSized zeroBlock
  refine ⟨?_, ?_, ?_⟩ <;> simp

/-- `allocBlocks` hands out the page ids `next_pid, next_pid + 1, …` in
order, each holding a zeroed block page, advancing the allocation cursor and
touching no existing page. -/
theorem allocBlocks_spec (N : Nat) :
    ∀ (n : Nat) (ps : PageStore),
    (allocBlocks N n ps).1 = List.range' ps.next_pid n
      ∧ (allocBlocks N n ps).2.next_pid = ps.next_pid + n
      ∧ (∀ q, q < ps.next_pid → (allocBlocks N n ps).2.mem q = ps.mem q)
      ∧ (∀ j, j < n → (allocBlocks N n ps).2.mem (ps.next_pid + j)
          = some (StoredPage.block (zeroBlock N)))
  | 0, ps => ⟨rfl, rfl, fun _ _ => rfl, fun j hj => absurd hj (by omega)⟩
  | n + 1, ps => by
    obtain ⟨ih1, ih2, ih3, ih4⟩ := allocBlocks_spec N n
      (ps.NewPage (StoredPage.block (zeroBlock N))).2
    have hn1 : (ps.NewPage (StoredPage.block (zeroBlock N))).2.next_pid
        = ps.next_pid + 1 := rfl
    have hm2 : (ps.NewPage (StoredPage.block (zeroBlock N))).2.mem ps.next_pid
        = some (StoredPage.block (zeroBlock N)) := by
      show (if ps.next_pid = ps.next_pid then _ else _) = _
      rw [if_pos rfl]
    refine ⟨?_, ?_, ?_, ?_⟩
    · show ps.next_pid
          :: (allocBlocks N n (ps.NewPage (StoredPage.block (zeroBlock N))).2).1 = _
      rw [ih1, hn1, show List.range' ps.next_pid (n + 1)
        = ps.next_pid :: List.range' (ps.next_pid + 1) n from rfl]
    · show (allocBlocks N n (ps.NewPage (StoredPage.block (zeroBlock N))).2).2.next_pid
        = _
      rw [ih2, hn1]
      omega
    · intro q hq
      show (allocBlocks N n (ps.NewPage (StoredPage.block (zeroBlock N))).2).2.mem q = _
      rw [ih3 q (by rw [hn1]; omega),
        mem_NewPage_other ps (StoredPage.block (zeroBlock N)) q (by omega)]
    · intro j hj
      show (allocBlocks N n (ps.NewPage (StoredPage.block (zeroBlock N))).2).2.mem
        (ps.next_pid + j) = _
      cases j with
      | zero =>
        rw [Nat.add_zero, ih3 _ (by rw [hn1]; omega)]
        exact hm2
      | succ j2 =>
        have he : ps.next_pid + (j2 + 1)
            = (ps.NewPage (StoredPage.block (zeroBlock N))).2.next_pid + j2 := by
          rw [hn1]; omega
        rw [he, ih4 j2 (by omega)]

/-- The state `Resize` builds before reinserting: a fresh header at the old
allocation cursor pointing at `nblk` fresh zeroed blocks, `num_buckets_`
doubled, `size_` reset to 0.  It is well formed, empty, and leaves every
pre-existing page untouched. -/
theorem fresh_resize_state (N : Nat) (ps : PageStore) (nb nblk : Nat)
    (hN : 0 < N) (hnb1 : 1 ≤ nb) (hcap : nb ≤ nblk * N) :
    ∀ s1 : LinearProbeHashTable,
    s1 = { store := ((allocBlocks N nblk
                (ps.NewPage
                  (StoredPage.header { size := 0, block_page_ids := [] })).2).2).writePage
              ps.next_pid
              (StoredPage.header
                { size := nb,
                  block_page_ids := (allocBlocks N nblk
                    (ps.NewPage
                      (StoredPage.header { size := 0, block_page_ids := [] })).2).1 }),
           header_page_id := ps.next_pid,
           num_buckets := nb,
           num_blocks := nblk,
           size := 0 } →
    WFidx N s1 ∧ s1.num_buckets = nb ∧ s1.header_page_id = ps.next_pid
      ∧ s1.size = 0 ∧ occCount N s1 = 0 ∧ liveList N s1 = []
      ∧ s1.store.next_pid = ps.next_pid + 1 + nblk
      ∧ (∀ x ∈ (hdrOf s1).block_page_ids, ps.next_pid + 1 ≤ x)
      ∧ (∀ q, q < ps.next_pid → s1.store.mem q = ps.mem q) := by
  intro s1 hs1
  obtain ⟨ha1, ha2, ha3, ha4⟩ := allocBlocks_spec N nblk
    (ps.NewPage (StoredPage.header { size := 0, block_page_ids := [] })).2
  have hpsN : (ps.NewPage
      (StoredPage.header { size := 0, block_page_ids := [] })).2.next_pid
      = ps.next_pid + 1 := rfl
  rw [hpsN] at ha1 ha2 ha3 ha4
  have hpsNmem : ∀ q, q ≠ ps.next_pid →
      (ps.NewPage (StoredPage.header { size := 0, block_page_ids := [] })).2.mem q
        = ps.mem q := fun q hq => mem_NewPage_other ps _ q hq
  set ids := (allocBlocks N nblk
    (ps.NewPage (StoredPage.header { size := 0, block_page_ids := [] })).2).1 with hids0
  set ps2 := (allocBlocks N nblk
    (ps.NewPage (StoredPage.header { size := 0, block_page_ids := [] })).2).2 with hps20
  have hst : s1.store = ps2.writePage ps.next_pid
      (StoredPage.header { size := nb, block_page_ids := ids }) := by rw [hs1]
  have hhp : s1.header_page_id = ps.next_pid := by rw [hs1]
  have hnbq : s1.num_buckets = nb := by rw [hs1]
  have hszq : s1.size = 0 := by rw [hs1]
  have hhdr : hdrOf s1 = { size := nb, block_page_ids := ids } := by
    unfold hdrOf
    rw [hst, hhp]
    unfold fetchHeader
    rw [mem_writePage_self]
  have hlenids : ids.length = nblk := by rw [ha1, range'_length]
  have hnumb : (hdrOf s1).NumBlocks = nblk := by
    rw [hhdr]
    show ids.length = nblk
    exact hlenids
  have hboundids : ∀ x ∈ ids, ps.next_pid + 1 ≤ x ∧ x < ps.next_pid + 1 + nblk := by
    intro x hx
    rw [ha1] at hx
    exact range'_mem_bound x nblk (ps.next_pid + 1) hx
  have hgid : ∀ i, i < nblk → (hdrOf s1).GetBlockPageId i = ps.next_pid + 1 + i := by
    intro i hi
    rw [hhdr]
    show ids.getD i 0 = _
    rw [ha1]
    exact range'_getD nblk (ps.next_pid + 1) i hi
  have hfbi : ∀ i, i < nblk → fetchBlock s1.store ((hdrOf s1).GetBlockPageId i)
      = zeroBlock N := by
    intro i hi
    rw [hgid i hi, hst]
    unfold fetchBlock
    rw [mem_writePage_other _ _ _ _ (by omega), ha4 i hi]
  have hnext : s1.store.next_pid = ps.next_pid + 1 + nblk := by
    rw [hst]
    show ps2.next_pid = _
    exact ha2
  have hwf1 : WFidx N s1 := by
    refine ⟨?_, ?_, ?_, ?_, ?_, ?_, ?_, ?_, ?_⟩
    · rw [hst, hhp]
      unfold isHeaderB
      rw [mem_writePage_self]
    · rw [hnbq, hnumb]
      exact hcap
    · intro i hi
      rw [hnumb] at hi
      rw [hgid i hi, hst]
      unfold isBlockB
      rw [mem_writePage_other _ _ _ _ (by omega), ha4 i hi]
    · intro i hi
      rw [hnumb] at hi
      rw [hfbi i hi]
      exact blockSized_zero N
    · intro i hi
      rw [hnumb] at hi
      rw [hfbi i hi]
      intro ind hind hr
      exact absurd hr (by rw [(zeroBlock_accessors N ind).2]; simp)
    · rw [hhdr]
      show ids.Nodup
      rw [ha1]
      exact range'_nodup nblk (ps.next_pid + 1)
    · rw [hhdr, hhp]
      show ps.next_pid ∉ ids
      intro hmem
      have := hboundids _ hmem
      omega
    · rw [hhp, hnext]
      omega
    · intro i hi
      rw [hnumb] at hi
      rw [hgid i hi, hnext]
      omega
  have hocc0 : occCount N s1 = 0 := by
    unfold occCount
    rw [hnbq]
    refine filter_len_zero _ _ (fun off hoff => ?_)
    have hofflt : off < nb := List.mem_range.1 hoff
    have hdiv : off / N < nblk :=
      (Nat.div_lt_iff_lt_mul hN).2 (Nat.lt_of_lt_of_le hofflt hcap)
    show occAt N s1 off = false
    unfold occAt bucketBlock
    rw [hfbi (off / N) hdiv]
    exact (zeroBlock_accessors N (off % N)).1
  have hlive0 : liveList N s1 = [] := by
    unfold liveList
    refine liveBlocksAux_nil N s1.store (hdrOf s1) _ 0 (fun t h1 h2 => ?_)
    rw [hfbi t (by rw [hnumb] at h2; omega)]
    exact blockLiveAux_zero N N 0
  have hmempres : ∀ q, q < ps.next_pid → s1.store.mem q = ps.mem q := by
    intro q hq
    rw [hst, mem_writePage_other _ _ _ _ (by omega), ha3 q (by omega),
      hpsNmem q (by omega)]
  refine ⟨hwf1, hnbq, hhp, hszq, hocc0, hlive0, hnext, ?_, hmempres⟩
  intro x hx
  rw [hhdr] at hx
  exact (hboundids x hx).1

/-! ## Claim C4 -/

/-- Claim C4: `Resize(observed)` on a well-formed index whose live pairs are
pairwise distinct and at most `observed` in number (as holds at the
resize-triggering call, where `observed` is the current `size_` and every
live pair occupies a distinct bucket) yields a directory with
`num_buckets_ ≥ 2 · observed`, holding exactly the same multiset of live
`(key, value)` pairs, with `size_` equal to the number of reinserted
pairs. -/
theorem resize_doubles_and_preserves_pairs (N : Nat) (hashFn : Nat → Nat)
    (g : Nat) (s : LinearProbeHashTable) (observed : Nat)
    (hN : 0 < N) (hwf : WFidx N s) (hnodup : (liveList N s).Nodup)
    (hcnt : (liveList N s).length ≤ observed)
    (hpos : 0 < observed) (hbound : observed < 2 ^ 63) :
    2 * observed ≤ (LinearProbeHashTable.Resize N hashFn (g + 1) s observed).num_buckets
      ∧ (liveList N (LinearProbeHashTable.Resize N hashFn (g + 1) s observed)).Perm
          (liveList N s)
      ∧ (LinearProbeHashTable.Resize N hashFn (g + 1) s observed).GetSize
        = (liveList N s).length := by
  have h64 : (2:Nat) ^ 64 = 2 ^ 63 * 2 := pow_succ 2 63
  have hp63 : 0 < (2:Nat) ^ 63 := pow_pos (by norm_num) 63
  have hnbE : 2 * observed % 2 ^ 64 = 2 * observed := Nat.mod_eq_of_lt (by omega)
  have hstp : sizeTPred (2 * observed % 2 ^ 64) = 2 * observed - 1 := by
    unfold sizeTPred
    rw [hnbE]
    have h1 : 2 * observed + (2 ^ 64 - 1) = (2 * observed - 1) + 2 ^ 64 := by omega
    rw [h1, Nat.add_mod_right]
    exact Nat.mod_eq_of_lt (by omega)
  have hcapN : 2 * observed % 2 ^ 64
      ≤ (sizeTPred (2 * observed % 2 ^ 64) / N + 1) * N := by
    rw [hstp, hnbE, Nat.add_mul, one_mul, Nat.mul_comm ((2 * observed - 1) / N) N]
    have hdm := Nat.div_add_mod (2 * observed - 1) N
    have hml := Nat.mod_lt (2 * observed - 1) hN
    omega
  have hres : LinearProbeHashTable.Resize N hashFn (g + 1) s observed
      = { (reinsertBlocks N
            (fun t k v => (LinearProbeHashTable.Insert N hashFn (g + 1) t k v).2)
            (hdrOf s) 0 ((hdrOf s).NumBlocks)
            { store := ((allocBlocks N (sizeTPred (2 * observed % 2 ^ 64) / N + 1)
                    (s.store.NewPage
                      (StoredPage.header { size := 0, block_page_ids := [] })).2).2).writePage
                  s.store.next_pid
                  (StoredPage.header
                    { size := 2 * observed % 2 ^ 64,
                      block_page_ids := (allocBlocks N
                        (sizeTPred (2 * observed % 2 ^ 64) / N + 1)
                        (s.store.NewPage
                          (StoredPage.header
                            { size := 0, block_page_ids := [] })).2).1 }),
               header_page_id := s.store.next_pid,
               num_buckets := 2 * observed % 2 ^ 64,
               num_blocks := sizeTPred (2 * observed % 2 ^ 64) / N + 1,
               size := 0 }) with
          store := (reinsertBlocks N
            (fun t k v => (LinearProbeHashTable.Insert N hashFn (g + 1) t k v).2)
            (hdrOf s) 0 ((hdrOf s).NumBlocks)
            { store := ((allocBlocks N (sizeTPred (2 * observed % 2 ^ 64) / N + 1)
                    (s.store.NewPage
                      (StoredPage.header { size := 0, block_page_ids := [] })).2).2).writePage
                  s.store.next_pid
                  (StoredPage.header
                    { size := 2 * observed % 2 ^ 64,
                      block_page_ids := (allocBlocks N
                        (sizeTPred (2 * observed % 2 ^ 64) / N + 1)
                        (s.store.NewPage
                          (StoredPage.header
                            { size := 0, block_page_ids := [] })).2).1 }),
               header_page_id := s.store.next_pid,
               num_buckets := 2 * observed % 2 ^ 64,
               num_blocks := sizeTPred (2 * observed % 2 ^ 64) / N + 1,
               size := 0 }).store.DeletePage s.header_page_id } := rfl
  obtain ⟨Wwf, Wnb, Whp, Wsz, Wocc, Wlive, Wnext, Wids, Wmem⟩ :=
    fresh_resize_state N s.store (2 * observed % 2 ^ 64)
      (sizeTPred (2 * observed % 2 ^ 64) / N + 1) hN (by rw [hnbE]; omega) hcapN
      { store := ((allocBlocks N (sizeTPred (2 * observed % 2 ^ 64) / N + 1)
              (s.store.NewPage
                (StoredPage.header { size := 0, block_page_ids := [] })).2).2).writePage
            s.store.next_pid
            (StoredPage.header
              { size := 2 * observed % 2 ^ 64,
                block_page_ids := (allocBlocks N
                  (sizeTPred (2 * observed % 2 ^ 64) / N + 1)
                  (s.store.NewPage
                    (StoredPage.header
                      { size := 0, block_page_ids := [] })).2).1 }),
         header_page_id := s.store.next_pid,
         num_buckets := 2 * observed % 2 ^ 64,
         num_blocks := sizeTPred (2 * observed % 2 ^ 64) / N + 1,
         size := 0 } rfl
  set S1 : LinearProbeHashTable :=
    { store := ((allocBlocks N (sizeTPred (2 * observed % 2 ^ 64) / N + 1)
            (s.store.NewPage
              (StoredPage.header { size := 0, block_page_ids := [] })).2).2).writePage
          s.store.next_pid
          (StoredPage.header
            { size := 2 * observed % 2 ^ 64,
              block_page_ids := (allocBlocks N
                (sizeTPred (2 * observed % 2 ^ 64) / N + 1)
                (s.store.NewPage
                  (StoredPage.header
                    { size := 0, block_page_ids := [] })).2).1 }),
       header_page_id := s.store.next_pid,
       num_buckets := 2 * observed % 2 ^ 64,
       num_blocks := sizeTPred (2 * observed % 2 ^ 64) / N + 1,
       size := 0 } with hS1def
  have hLL : liveBlocksAux N s.store (hdrOf s) 0 ((hdrOf s).NumBlocks)
      = liveList N s := rfl
  have h8 := hwf.2.2.2.2.2.2.2.1
  have hdist0 : ∀ t u, 0 ≤ t → t < u → u < 0 + (hdrOf s).NumBlocks →
      (hdrOf s).GetBlockPageId t ≠ (hdrOf s).GetBlockPageId u := by
    intro t u h1 h2 h3
    have hlen : (hdrOf s).NumBlocks = (hdrOf s).block_page_ids.length := rfl
    exact nodup_getD_ne _ hwf.2.2.2.2.2.1 t u (by omega) (by omega) (by omega) 0
  have hreg0 : ∀ t, 0 ≤ t → t < 0 + (hdrOf s).NumBlocks →
      S1.store.mem ((hdrOf s).GetBlockPageId t)
        = s.store.mem ((hdrOf s).GetBlockPageId t) := by
    intro t h1 h2
    exact Wmem _ (hwf.2.2.2.2.2.2.2.2 t (by omega))
  have hfor0 : ∀ t, 0 ≤ t → t < 0 + (hdrOf s).NumBlocks →
      (hdrOf s).GetBlockPageId t ∉ (hdrOf S1).block_page_ids
        ∧ (hdrOf s).GetBlockPageId t ≠ S1.header_page_id := by
    intro t h1 h2
    have hlt := hwf.2.2.2.2.2.2.2.2 t (by omega)
    constructor
    · intro hmem
      have := Wids _ hmem
      omega
    · rw [Whp]
      omega
  obtain ⟨Rwf, Rnb, Rpid, Rids, Rsz, Rocc, Rnext, Rlive⟩ :=
    reinsertBlocks_spec N hashFn g s.store (hdrOf s) ((hdrOf s).NumBlocks) 0 S1
      hN Wwf (by rw [Wnb, hnbE]; omega)
      (by rw [Wsz, Wocc])
      (by rw [Wocc, hLL, Wnb, hnbE]; omega)
      (by rw [hLL]; exact hnodup)
      (by intro p hp; rw [Wlive]; exact List.not_mem_nil p)
      hreg0 hfor0 hdist0 _ rfl
  set R := reinsertBlocks N
      (fun t k v => (LinearProbeHashTable.Insert N hashFn (g + 1) t k v).2)
      (hdrOf s) 0 ((hdrOf s).NumBlocks) S1 with hRdef
  rw [hLL] at Rsz Rocc Rlive
  have hd1 : s.header_page_id ∉ (hdrOf R).block_page_ids := by
    rw [Rids]
    intro hmem
    have := Wids _ hmem
    omega
  have hd2 : s.header_page_id ≠ R.header_page_id := by
    rw [Rpid, Whp]
    omega
  obtain ⟨Dhdr, Dwf, Docc, Dlive⟩ :=
    deletePage_foreign N hN R s.header_page_id hd1 hd2 Rwf
  rw [hres]
  refine ⟨?_, ?_, ?_⟩
  · show 2 * observed ≤ R.num_buckets
    have he : R.num_buckets = 2 * observed := by rw [Rnb, Wnb, hnbE]
    omega
  · rw [Dlive]
    rw [Wlive, List.append_nil] at Rlive
    exact Rlive
  · show R.size = (liveList N s).length
    rw [Rsz, Wsz, Nat.zero_add]

theorem resize_doubles_and_preserves_pairs_witness :
    let s := mkLinearProbeHashTable 4 2
    (0 < 4 ∧ WFidx 4 s ∧ (liveList 4 s).Nodup ∧ (liveList 4 s).length ≤ 1
        ∧ 0 < 1 ∧ 1 < 2 ^ 63)
      ∧ (2 * 1 ≤ (LinearProbeHashTable.Resize 4 (fun x => x) (0 + 1) s 1).num_buckets
        ∧ (liveList 4 (LinearProbeHashTable.Resize 4 (fun x => x) (0 + 1) s 1)).Perm
            (liveList 4 s)
        ∧ (LinearProbeHashTable.Resize 4 (fun x => x) (0 + 1) s 1).GetSize
          = (liveList 4 s).length) := by
  intro s
  refine ⟨⟨by decide, by decide, by decide, by decide, by decide, by decide⟩, ?_⟩
  exact resize_doubles_and_preserves_pairs 4 (fun x => x) 0 s 1 (by decide) (by decide)
    (by decide) (by decide) (by decide) (by decide)
